import Mathlib

/-!
Verification development for the Luminote backend extraction and caching
services (`app/services/extraction_service.py`, `app/services/caching_service.py`).

The Python code is shallowly embedded: the DOM that BeautifulSoup hands to the
extraction service is modelled as a tree of elements and text nodes, and each
Python method is translated to an executable Lean function over that tree.
The caching service is modelled as explicit state passing with time supplied
as a parameter.  `uuid.uuid4()` draws are modelled by an explicit id supply
function `Nat → String` indexed by the number of draws made so far.
-/

namespace Luminote

/-! ## String utilities

Python string primitives (`str.lower`, `str.strip`, the `in` operator,
`str.split("\n")`, `"\n".join`, `str.replace`) are modelled by structurally
recursive functions over the character list of a `String`, so that all
definitions evaluate by kernel reduction. -/

/-- Python `str.lower()` (ASCII-relevant part). -/
def lowerStr (s : String) : String :=
  String.mk (s.data.map Char.toLower)

/-- Characters treated as whitespace (Python `str.strip` / regex whitespace,
restricted to the ASCII whitespace that occurs in HTML text). -/
def isWs (c : Char) : Bool := c.isWhitespace

/-- Python `str.strip()`. -/
def strTrim (s : String) : String :=
  String.mk (((s.data.dropWhile isWs).reverse.dropWhile isWs).reverse)

/-- Occurrence of `needle` as a contiguous sublist of `hay`. -/
def listInfix (needle : List Char) : List Char → Bool
  | [] => needle.isEmpty
  | c :: t => needle.isPrefixOf (c :: t) || listInfix needle t

/-- Python `needle in hay` for strings. -/
def strContains (hay needle : String) : Bool :=
  listInfix needle.data hay.data

/-- Split a character list on a separator character; mirrors Python
`str.split(sep)` for a one-character separator (so `""` splits to `[""]`). -/
def splitOnChar (sep : Char) : List Char → List (List Char)
  | [] => [[]]
  | c :: rest =>
    let r := splitOnChar sep rest
    if c == sep then [] :: r
    else
      match r with
      | [] => [[c]]
      | h :: t => (c :: h) :: t

/-- Python `text.split("\n")`. -/
def splitLines (s : String) : List String :=
  (splitOnChar (Char.ofNat 10) s.data).map String.mk

/-- Python `"\n".join(lines)`. -/
def joinLines : List String → String
  | [] => ""
  | [l] => l
  | l :: rest => l ++ "\n" ++ joinLines rest

/-- Fuel-driven worker for `str.replace` (non-overlapping, left to right);
the fuel is always instantiated with the length of the string, which makes
the recursion structural while computing exactly Python replace. -/
def replaceFuel (pat rep : List Char) : Nat → List Char → List Char
  | _, [] => []
  | 0, s => s
  | fuel + 1, c :: t =>
    if pat.isPrefixOf (c :: t) && !pat.isEmpty then
      rep ++ replaceFuel pat rep fuel ((c :: t).drop pat.length)
    else
      c :: replaceFuel pat rep fuel t

/-- Python `s.replace(pat, rep)` (for nonempty `pat`). -/
def strReplace (s pat rep : String) : String :=
  String.mk (replaceFuel pat.data rep.data s.data.length s.data)

/-- Stable insertion into a list sorted by a strict key comparison; used to
model Python's stable `sorted`. -/
def insertByKey (lt : α → α → Bool) (x : α) : List α → List α
  | [] => [x]
  | y :: t => if lt y x then y :: insertByKey lt x t else x :: y :: t

/-- Stable sort (insertion sort), modelling Python `sorted(..., key=...)`. -/
def sortByKey (lt : α → α → Bool) : List α → List α
  | [] => []
  | x :: t => insertByKey lt x (sortByKey lt t)

/-! ## DOM model

A document is a tree of element nodes (tag, class list, id attribute, other
attributes) and text nodes.  The mutual `Node`/`NodeList` presentation keeps
all recursions structural. -/

mutual
inductive Node where
  | text (s : String)
  | elem (tag : String) (classes : List String) (idAttr : String)
         (attrs : List (String × String)) (children : NodeList)

inductive NodeList where
  | nil
  | cons (n : Node) (ns : NodeList)
end

/-- Build a `NodeList` from a `List Node`. -/
def nl : List Node → NodeList
  | [] => .nil
  | n :: ns => .cons n (nl ns)

def Node.tagOf : Node → String
  | .text _ => ""
  | .elem t _ _ _ _ => t

def Node.classesOf : Node → List String
  | .text _ => []
  | .elem _ cs _ _ _ => cs

def Node.idAttrOf : Node → String
  | .text _ => ""
  | .elem _ _ i _ _ => i

def Node.attrsOf : Node → List (String × String)
  | .text _ => []
  | .elem _ _ _ a _ => a

def Node.childrenOf : Node → NodeList
  | .text _ => .nil
  | .elem _ _ _ _ c => c

/-- BS4 `element.get(attr, "")`. -/
def Node.attrD (n : Node) (key : String) : String :=
  (n.attrsOf.lookup key).getD ""

/-- BS4 `element.get(attr)` (None when absent, modelled as `Option`). -/
def Node.attrOpt (n : Node) (key : String) : Option String :=
  n.attrsOf.lookup key

mutual
/-- BS4 `element.get_text()`: concatenation of all text descendants. -/
def rawText : Node → String
  | .text s => s
  | .elem _ _ _ _ cs => rawTextList cs

def rawTextList : NodeList → String
  | .nil => ""
  | .cons n ns => rawText n ++ rawTextList ns
end

mutual
/-- BS4 `element.get_text(strip=True)`: each text fragment stripped, then
concatenated. -/
def stripText : Node → String
  | .text s => strTrim s
  | .elem _ _ _ _ cs => stripTextList cs

def stripTextList : NodeList → String
  | .nil => ""
  | .cons n ns => stripText n ++ stripTextList ns
end

/-- A candidate element paired with its preorder address in the document
(`path`, root-down child indices) and its ancestor chain (`anc`, nearest
ancestor first). -/
abbrev Cand := List Nat × List Node × Node

mutual
/-- All element descendants below a child list, in document (preorder)
order, carrying their path and ancestor chain. -/
def descendantsList (path : List Nat) (i : Nat) (anc : List Node) :
    NodeList → List Cand
  | .nil => []
  | .cons n ns =>
    descendantsEntry path i anc n ++ descendantsList path (i + 1) anc ns

/-- The contribution of the child at index `i`: the child itself (when it is
an element) followed by its own descendants. -/
def descendantsEntry (path : List Nat) (i : Nat) (anc : List Node) :
    Node → List Cand
  | .text _ => []
  | .elem t cs id' a children =>
    (path ++ [i], anc, Node.elem t cs id' a children) ::
      descendantsList (path ++ [i]) 0 (Node.elem t cs id' a children :: anc)
        children
end

/-- All element descendants of a node, in document (preorder) order.  The
node itself is not included, matching BS4 `find_all`, which searches
descendants only. -/
def descendantsNode (path : List Nat) (anc : List Node) : Node → List Cand
  | .text _ => []
  | .elem t cs i a children =>
    descendantsList path 0 (Node.elem t cs i a children :: anc) children

/-- First descendant satisfying a predicate (BS4 `find`). -/
def findDesc (p : Node → Bool) (root : Node) : Option Cand :=
  (descendantsNode [] [] root).find? (fun c => p c.2.2)

/-- Worker for `directChildrenWithTag`. -/
def directChildrenWithTagGo (tag : String) : NodeList → List Node
  | .nil => []
  | .cons c cs =>
    (if c.tagOf == tag then [c] else []) ++ directChildrenWithTagGo tag cs

/-- Direct element children of a node with a given tag
(BS4 `find_all(tag, recursive=False)`). -/
def directChildrenWithTag (tag : String) (n : Node) : List Node :=
  directChildrenWithTagGo tag n.childrenOf

/-! ## Noise filter (`_is_navigation_or_sidebar`)

The Python method walks from the element itself up through its parents,
stopping when the next parent is `body`/`html`/`[document]` (those are never
inspected).  Here the walk is over the chain `element :: ancestors`. -/

def pullKeywords : List String := ["pull", "pullquote", "highlight"]

def noiseClassKeywords : List String :=
  ["nav", "navigation", "sidebar", "side-bar", "related", "trending", "menu",
   "comment", "comments", "disqus", "discourse", "replies"]

def noiseIdKeywords : List String :=
  ["nav", "sidebar", "menu", "related", "trending", "comment", "comments",
   "disqus", "discourse"]

/-- Python `" ".join(classes).lower()`. -/
def classStr (classes : List String) : String :=
  lowerStr (String.intercalate " " classes)

/-- Whether an aside's class string carries a pull-quote/highlight marker. -/
def hasPullMarker (n : Node) : Bool :=
  pullKeywords.any (fun k => strContains (classStr n.classesOf) k)

/-- The per-element test of the `while` loop body of
`_is_navigation_or_sidebar`: tag is `nav`; or an `aside` without pull-quote
markers; or a noise keyword occurs in the class string; or a noise keyword
occurs in the id. -/
def elemNoisy (n : Node) : Bool :=
  n.tagOf == "nav" ||
  (n.tagOf == "aside" && !hasPullMarker n) ||
  noiseClassKeywords.any (fun k => strContains (classStr n.classesOf) k) ||
  noiseIdKeywords.any (fun k => strContains (lowerStr n.idAttrOf) k)

def boundaryTags : List String := ["body", "html", "[document]"]

/-- `_is_navigation_or_sidebar`, as a walk over `element :: ancestors`:
check the current node, move to the parent, and stop (without checking)
once the parent is a body/html/document boundary or the chain ends. -/
def isNavigationOrSidebar : List Node → Bool
  | [] => false
  | [e] => elemNoisy e
  | e :: p :: t =>
    if elemNoisy e then true
    else if boundaryTags.contains p.tagOf then false
    else isNavigationOrSidebar (p :: t)

/-- The chain elements actually inspected by `_is_navigation_or_sidebar`. -/
def checkedElems : List Node → List Node
  | [] => []
  | [e] => [e]
  | e :: p :: t =>
    e :: (if boundaryTags.contains p.tagOf then [] else checkedElems (p :: t))

/-! ## Tabbed-content helpers -/

/-- The class patterns matched by the regex `(?:tab|tabbed)[-_]content`
(unanchored search over the joined class string, case-insensitive). -/
def tabClassPatterns : List String :=
  ["tab-content", "tab_content", "tabbed-content", "tabbed_content"]

/-- A div whose class string matches the tabbed-container regex. -/
def isTabClassContainer (n : Node) : Bool :=
  tabClassPatterns.any (fun k => strContains (classStr n.classesOf) k)

/-- Presence of the `data-tabs` attribute (BS4 `attrs={"data-tabs": True}`
matches on presence, regardless of value). -/
def hasDataTabsAttr (n : Node) : Bool :=
  (n.attrOpt "data-tabs").isSome

/-- The per-element test of `_is_inside_tabbed_content`: the class string
contains `tabbed` or `tab-content`, or the `data-tabs` attribute is present
and truthy (nonempty). -/
def insideTabbedSelf (e : Node) : Bool :=
  if strContains (classStr e.classesOf) "tabbed" ||
     strContains (classStr e.classesOf) "tab-content" then true
  else
    match e.attrOpt "data-tabs" with
    | some v => v != ""
    | none => false

/-- `_is_inside_tabbed_content`: walk `element :: ancestors`, applying the
per-element test; the walk stops once the parent is a boundary tag. -/
def isInsideTabbedContent : List Node → Bool
  | [] => false
  | [e] => insideTabbedSelf e
  | e :: p :: t =>
    if insideTabbedSelf e then true
    else if boundaryTags.contains p.tagOf then false
    else isInsideTabbedContent (p :: t)

/-! ## Pull-quote detection (`_is_pull_quote`) -/

/-- `_is_pull_quote`: the blockquote's own class string carries a pull
marker, or its immediate parent is an `aside` whose class string does. -/
def isPullQuote (el : Node) (parent : Option Node) : Bool :=
  (pullKeywords.any fun k => strContains (classStr el.classesOf) k) ||
  (match parent with
   | some p =>
     p.tagOf == "aside" &&
       (pullKeywords.any fun k => strContains (classStr p.classesOf) k)
   | none => false)

/-! ## Line-number stripping (`_remove_line_numbers`) -/

/-- Digits of a matched number, folded as Python `int` does. -/
def digitsToNat (ds : List Char) : Nat :=
  ds.foldl (fun n c => n * 10 + (c.toNat - 48)) 0

/-- The regex `^(\s*)(\d+)[.:]\s(.*)$` applied to one line, returning the
captured (leading whitespace, number, remainder). -/
def matchNumberedLine (line : String) : Option (String × Nat × String) :=
  let cs := line.data
  let ws := cs.takeWhile isWs
  let afterWs := cs.dropWhile isWs
  let ds := afterWs.takeWhile Char.isDigit
  let afterDs := afterWs.dropWhile Char.isDigit
  if ds.isEmpty then none
  else
    match afterDs with
    | sep :: sp :: rest =>
      if (sep == Char.ofNat 46 || sep == Char.ofNat 58) && isWs sp then
        some (String.mk ws, digitsToNat ds, String.mk rest)
      else none
    | _ => none

/-- The `(idx, number, match)` list collected over the lines. -/
def lineMatches (lines : List String) : List (Nat × String × Nat × String) :=
  lines.enum.filterMap fun p =>
    (matchNumberedLine p.2).map fun m => (p.1, m)

/-- Python `all(later == earlier + 1 for earlier, later in zip(ns, ns[1:]))`. -/
def consecutiveNums : List Nat → Bool
  | [] => true
  | [_] => true
  | a :: b :: t => (b == a + 1) && consecutiveNums (b :: t)

/-- One line of the stripping pass: a matched line keeps its indentation and
remainder; an unmatched line is kept as is.  (The Python code looks the match
up in `match_by_index`; re-running the deterministic matcher on the line
yields exactly that match.) -/
def stripLine (l : String) : String :=
  match matchNumberedLine l with
  | some (ind, _, rest) => ind ++ rest
  | none => l

/-- `_remove_line_numbers`. -/
def removeLineNumbers (codeText : String) : String :=
  let lines := splitLines codeText
  let ms := lineMatches lines
  if ms.length < 2 || lines.length > 2 * ms.length then codeText
  else if !consecutiveNums (ms.map fun p => p.2.2.1) then codeText
  else joinLines (lines.map stripLine)

/-- The three-way gate of `_remove_line_numbers`: at least two matched lines,
matched lines at least half of all lines, and the numbers strictly
consecutive in order of appearance. -/
def stripGate (codeText : String) : Bool :=
  let lines := splitLines codeText
  let ms := lineMatches lines
  decide (2 ≤ ms.length) && decide (lines.length ≤ 2 * ms.length) &&
    consecutiveNums (ms.map fun p => p.2.2.1)

/-! ## Content blocks and the element classifier (`_element_to_block`) -/

/-- A metadata value (`dict` values in the Python block metadata). -/
inductive MVal where
  | s (v : String)
  | n (v : Nat)
  | b (v : Bool)
  | ls (v : List String)
  | opt (v : Option String)
deriving DecidableEq, Repr

structure ContentBlock where
  id : String
  type : String
  text : String
  metadata : List (String × MVal)
deriving DecidableEq, Repr

def headingTags : List String := ["h1", "h2", "h3", "h4", "h5", "h6"]

/-- Python `int(element.name[1])` for the heading tags `h1`…`h6`: the digit
character at index 1 of the tag name. -/
def headingLevel (tag : String) : Nat :=
  match tag.data with
  | _ :: c :: _ => c.toNat - 48
  | _ => 0

/-- The display bullet line for one list item (`"• {item}"` or
`"{i+1}. {item}"`). -/
def listItemLine (isUl : Bool) (i : Nat) (item : String) : String :=
  if isUl then "• " ++ item else toString (i + 1) ++ ". " ++ item

/-- Language detection for a `pre` block: scan the first inner `code`
element's classes for the `language-<name>` convention. -/
def detectLanguage (el : Node) : Option String :=
  match findDesc (fun n => n.tagOf == "code") el with
  | some (_, _, codeElem) =>
    match codeElem.classesOf.find? (fun cls =>
        ("language-".data).isPrefixOf cls.data) with
    | some cls => some (strReplace cls "language-" "")
    | none => none
  | none => none

/-- `_element_to_block`.  `blockId` is the `uuid.uuid4()` draw made at the
top of the call; `parent` is the element's immediate parent (used only by
the blockquote branch via `_is_pull_quote`). -/
def elementToBlock (blockId : String) (parent : Option Node) (el : Node) :
    Option ContentBlock :=
  if headingTags.contains el.tagOf then
    let level := headingLevel el.tagOf
    let text := stripText el
    if text == "" then none
    else some ⟨blockId, "heading", text, [("level", .n level)]⟩
  else if el.tagOf == "p" then
    let text := stripText el
    if text == "" then none
    else some ⟨blockId, "paragraph", text, []⟩
  else if el.tagOf == "ul" || el.tagOf == "ol" then
    let items := ((directChildrenWithTag "li" el).map stripText).filter
      (fun item => item != "")
    if items.isEmpty then none
    else
      let text := joinLines (items.enum.map fun p =>
        listItemLine (el.tagOf == "ul") p.1 p.2)
      some ⟨blockId, "list", text,
        [("list_type", .s (if el.tagOf == "ul" then "unordered" else "ordered")),
         ("items", .ls items)]⟩
  else if el.tagOf == "blockquote" then
    let text := stripText el
    if text == "" then none
    else some ⟨blockId, "quote", text,
      [("is_pull_quote", .b (isPullQuote el parent))]⟩
  else if el.tagOf == "pre" || el.tagOf == "code" then
    let text := rawText el
    if strTrim text == "" then none
    else
      let text := removeLineNumbers text
      let language := if el.tagOf == "pre" then detectLanguage el else none
      let metadata :=
        match language with
        | some lang => if lang != "" then [("language", MVal.s lang)] else []
        | none => []
      some ⟨blockId, "code", text, metadata⟩
  else if el.tagOf == "img" then
    let src := el.attrD "src"
    let alt := el.attrD "alt"
    if src == "" then none
    else some ⟨blockId, "image", alt,
      [("src", .s src), ("alt", .s alt),
       ("width", .opt (el.attrOpt "width")),
       ("height", .opt (el.attrOpt "height"))]⟩
  else if el.tagOf == "figure" then
    match findDesc (fun n => n.tagOf == "img") el with
    | none => none
    | some (_, _, img) =>
      if img.attrD "src" == "" then none
      else
        let src := img.attrD "src"
        let alt := img.attrD "alt"
        let caption :=
          match findDesc (fun n => n.tagOf == "figcaption") el with
          | some (_, _, fc) => stripText fc
          | none => ""
        let text := if caption != "" then caption else alt
        some ⟨blockId, "image", text,
          [("src", .s src), ("alt", .s alt), ("caption", .s caption),
           ("width", .opt (img.attrOpt "width")),
           ("height", .opt (img.attrOpt "height"))]⟩
  else none

/-! ## Block segmentation (`_parse_html_to_blocks`)

The id supply `ids : Nat → String` models the successive `uuid.uuid4()`
draws; the counter argument is the number of draws made so far.  Every
emitted block is annotated with the document path of the element the block
was built from, so that document-order statements can be made; the service's
output is the annotation-erased projection. -/

def blockTags : List String :=
  ["p", "h1", "h2", "h3", "h4", "h5", "h6", "ul", "ol", "blockquote", "pre",
   "img", "figure"]

/-- `find_parent("pre")` for a descendant at path `q` with ancestor chain
`anc` (nearest first): nearest strict ancestor with tag `pre`, together with
its path and its own parent. -/
def findParentPre (q : List Nat) : Nat → List Node →
    Option (List Nat × Option Node × Node)
  | _, [] => none
  | j, a :: rest =>
    if a.tagOf == "pre" then some (q.take (q.length - j), rest.head?, a)
    else findParentPre q (j + 1) rest

/-- Worker for `tabContainerBlocks`: over the container's `pre`/`code`
descendants, emit a block from each one's nearest enclosing `pre` (elements
with no enclosing `pre` are skipped), drawing one id per
`_element_to_block` call. -/
def tabBlocksGo (ids : Nat → String) : Nat → List Cand →
    List (List Nat × ContentBlock) × Nat
  | counter, [] => ([], counter)
  | counter, d :: rest =>
    match findParentPre d.1 1 d.2.1 with
    | none => tabBlocksGo ids counter rest
    | some (prePath, preParent, preNode) =>
      let blk := elementToBlock (ids counter) preParent preNode
      let (out, c') := tabBlocksGo ids (counter + 1) rest
      match blk with
      | some b => ((prePath, b) :: out, c')
      | none => (out, c')

/-- The code blocks emitted for one tabbed container
(`tab_container.find_all(["pre", "code"])` followed by the per-element
parent-`pre` lookup). -/
def tabContainerBlocks (ids : Nat → String) (counter : Nat)
    (c : Cand) : List (List Nat × ContentBlock) × Nat :=
  let subtree := (descendantsNode c.1 c.2.1 c.2.2).filter
    (fun d => d.2.2.tagOf == "pre" || d.2.2.tagOf == "code")
  tabBlocksGo ids counter subtree

/-- The tab pre-pass over the container list: containers already destroyed by
an earlier `decompose()` (i.e. lying inside an already processed container)
contribute nothing; the others emit their code blocks and are recorded as
decomposed. -/
def tabPass (ids : Nat → String) :
    Nat → List (List Nat) → List Cand →
    List (List Nat × ContentBlock) × Nat × List (List Nat)
  | counter, decomposed, [] => ([], counter, decomposed)
  | counter, decomposed, c :: rest =>
    if decomposed.any (fun d => d.isPrefixOf c.1) then
      tabPass ids counter decomposed rest
    else
      let (blks, c1) := tabContainerBlocks ids counter c
      let (out, c2, dec2) := tabPass ids c1 (decomposed ++ [c.1]) rest
      (blks ++ out, c2, dec2)

/-- The skip tests applied to each candidate of the main loop (in source
order): `code` inside `pre` (vacuous, since `code` is not among the searched
tags), `img` inside `figure`, the noise filter, the tabbed-content check. -/
def mainSkip (c : Cand) : Bool :=
  (c.2.2.tagOf == "code" && c.2.1.any (fun a => a.tagOf == "pre")) ||
  (c.2.2.tagOf == "img" && c.2.1.any (fun a => a.tagOf == "figure")) ||
  isNavigationOrSidebar (c.2.2 :: c.2.1) ||
  isInsideTabbedContent (c.2.2 :: c.2.1)

/-- The main per-element loop: classify each surviving candidate, drawing one
id per `_element_to_block` call, and append the non-null results. -/
def mainPass (ids : Nat → String) : Nat → List Cand →
    List (List Nat × ContentBlock)
  | _, [] => []
  | counter, c :: rest =>
    if mainSkip c then mainPass ids counter rest
    else
      match elementToBlock (ids counter) c.2.1.head? c.2.2 with
      | some b => (c.1, b) :: mainPass ids (counter + 1) rest
      | none => mainPass ids (counter + 1) rest

/-- The traversal scope: `soup.find("body") or soup`. -/
def contentRootOf (doc : Node) : Cand :=
  match findDesc (fun n => n.tagOf == "body") doc with
  | some c => c
  | none => ([], [], doc)

/-- The tabbed containers, in the order the Python code builds the list:
first the divs whose class matches the tab regex, then the divs carrying a
`data-tabs` attribute (a div matching both is listed once here; processing
it a second time after `decompose()` contributes nothing, which the
prefix-check in `tabPass` reproduces). -/
def tabContainers (cands : List Cand) : List Cand :=
  (cands.filter fun c => c.2.2.tagOf == "div" && isTabClassContainer c.2.2) ++
  (cands.filter fun c =>
    c.2.2.tagOf == "div" && hasDataTabsAttr c.2.2 && !isTabClassContainer c.2.2)

/-- `_parse_html_to_blocks`, with each block annotated by the document path
of its source element. -/
def parseHtmlToBlocksAnn (ids : Nat → String) (doc : Node) :
    List (List Nat × ContentBlock) :=
  let root := contentRootOf doc
  let cands := descendantsNode root.1 root.2.1 root.2.2
  let containers := tabContainers cands
  let (tabBlocks, c1, decomposed) := tabPass ids 0 [] containers
  let mainCands := cands.filter fun c =>
    blockTags.contains c.2.2.tagOf &&
      !(decomposed.any fun d => d.isPrefixOf c.1)
  tabBlocks ++ mainPass ids c1 mainCands

/-- `_parse_html_to_blocks`: the service's output block list. -/
def parseHtmlToBlocks (ids : Nat → String) (doc : Node) : List ContentBlock :=
  (parseHtmlToBlocksAnn ids doc).map (fun p => p.2)

/-- Erase the generated id of a block (for determinism-modulo-ids
statements). -/
def eraseId (b : ContentBlock) : ContentBlock :=
  { b with id := "" }

/-! ## Article-type detection (`_detect_article_type`,
`_detect_technical_article`, and their composition in `_extract_metadata`)

`json.loads` is an external library call; it is modelled by a parse function
`String → Option JsonVal` supplied as a parameter (returning `none` where
Python raises `JSONDecodeError`). -/

inductive JsonVal where
  | jstr (s : String)
  | jnum (n : Int)
  | jbool (b : Bool)
  | jnull
  | jarr (xs : List JsonVal)
  | jobj (fields : List (String × JsonVal))

/-- `soup.find("script", attrs={"type": "application/ld+json"})` followed by
`json_ld.string or ""`. -/
def jsonLdText (doc : Node) : Option String :=
  (findDesc (fun n =>
      n.tagOf == "script" && n.attrD "type" == "application/ld+json") doc).map
    (fun c => rawText c.2.2)

/-- `_detect_article_type`: JSON-LD `@type` (`NewsArticle` → news,
`BlogPosting` → blog), else the Open Graph `og:type` token match. -/
def detectArticleType (jparse : String → Option JsonVal) (doc : Node) :
    Option String :=
  let fromLd :=
    match jsonLdText doc with
    | some txt =>
      match jparse txt with
      | some (.jobj fields) =>
        match fields.lookup "@type" with
        | some (.jstr t) =>
          if t == "NewsArticle" then some "news"
          else if t == "BlogPosting" then some "blog"
          else none
        | _ => none
      | _ => none
    | none => none
  match fromLd with
  | some t => some t
  | none =>
    match findDesc (fun n =>
        n.tagOf == "meta" && n.attrD "property" == "og:type") doc with
    | some (_, _, og) =>
      let content := lowerStr (og.attrD "content")
      if strContains content "blog" then some "blog"
      else if strContains content "article" then some "news"
      else none
    | none => none

/-- Whether the JSON-LD block declares `@type: TechArticle`. -/
def hasTechArticleLd (jparse : String → Option JsonVal) (doc : Node) : Bool :=
  match jsonLdText doc with
  | some txt =>
    match jparse txt with
    | some (.jobj fields) =>
      match fields.lookup "@type" with
      | some (.jstr t) => t == "TechArticle"
      | _ => false
    | _ => false
  | none => false

def technicalTitleKeywords : List String :=
  ["api", "documentation", "guide", "tutorial", "reference", "sdk", "library"]

/-- `_detect_technical_article`: TechArticle JSON-LD; else three or more
logical code blocks (`pre` containing a `code`, plus standalone `code`
outside any `pre`); else a technical keyword in the title together with at
least four `h2`/`h3`/`h4` headings. -/
def detectTechnicalArticle (jparse : String → Option JsonVal) (doc : Node) :
    Bool :=
  if hasTechArticleLd jparse doc then true
  else
    let desc := descendantsNode [] [] doc
    let preCodeCount := (desc.filter fun c =>
      c.2.2.tagOf == "pre" &&
        (findDesc (fun n => n.tagOf == "code") c.2.2).isSome).length
    let standaloneCodeCount := (desc.filter fun c =>
      c.2.2.tagOf == "code" &&
        !(c.2.1.any fun a => a.tagOf == "pre")).length
    if preCodeCount + standaloneCodeCount ≥ 3 then true
    else
      match findDesc (fun n => n.tagOf == "title") doc with
      | some (_, _, title) =>
        let titleText := lowerStr (rawText title)
        if technicalTitleKeywords.any (fun k => strContains titleText k) then
          let headings := desc.filter fun c =>
            c.2.2.tagOf == "h2" || c.2.2.tagOf == "h3" || c.2.2.tagOf == "h4"
          headings.length ≥ 4
        else false
      | none => false

/-- The article-type resolution in `_extract_metadata`:
`article_type = self._detect_article_type(soup)`;
`if is_technical and not article_type: article_type = "technical"`. -/
def resolveArticleType (jparse : String → Option JsonVal) (doc : Node) :
    Option String :=
  let articleType := detectArticleType jparse doc
  if detectTechnicalArticle jparse doc && articleType.isNone then
    some "technical"
  else articleType

/-! ## The extraction orchestrator's empty-result check (`extract`) -/

structure ExtractedContent where
  url : String
  title : String
  contentBlocks : List ContentBlock
  metadata : List (String × MVal)
deriving DecidableEq, Repr

/-- The tail of `ExtractionService.extract` after the Readability call: parse
the cleaned HTML into blocks, raise `ExtractionError` when no block was
produced, otherwise build the `ExtractedContent`.  The metadata heuristics
(`_extract_metadata`) are passed in as a function `mkMeta` of the block
list; `title` is the Readability title (`or "Untitled"` applied as in the
source). -/
def extractCore (ids : Nat → String)
    (mkMeta : List ContentBlock → List (String × MVal))
    (url title : String) (cleanedDoc : Node) :
    Except String ExtractedContent :=
  let contentBlocks := parseHtmlToBlocks ids cleanedDoc
  if contentBlocks.isEmpty then
    Except.error "No content blocks extracted"
  else
    Except.ok
      { url := url,
        title := if title == "" then "Untitled" else title,
        contentBlocks := contentBlocks,
        metadata := mkMeta contentBlocks }

/-! ## Caching service (`caching_service.py`)

State is explicit; `time.time()` is modelled by a `now : Nat` parameter held
fixed within one operation.  Compression of an `ExtractedContent` is the
external `gzip`/`model_dump_json` pipeline, modelled by a fallible function
`compress : Content → Option (List Nat)` (bytes; `none` models a raised
exception), and decompression by `decompress : List Nat → Option Content`. -/

abbrev Content := String

structure CacheEntry where
  compressedData : List Nat
  expiresAt : Nat
  sizeBytes : Nat
  lastAccessed : Nat
deriving DecidableEq, Repr

structure CacheState where
  entries : List (String × CacheEntry)
  hits : Nat
  misses : Nat
  evictions : Nat
  expirations : Nat
deriving DecidableEq, Repr

def CacheState.empty : CacheState := ⟨[], 0, 0, 0, 0⟩

structure CacheConfig where
  ttlSeconds : Nat
  maxStorageBytes : Nat
  hash : String → String
  compress : Content → Option (List Nat)
  decompress : List Nat → Option Content

def maxUrlLengthForKey : Nat := 200

/-- `_make_cache_key`. -/
def makeCacheKey (cfg : CacheConfig) (url : String) : String :=
  if url.length ≤ maxUrlLengthForKey then url
  else "url_hash:" ++ cfg.hash url

/-- `_get_current_storage_bytes`. -/
def storageBytes (st : CacheState) : Nat :=
  (st.entries.map (fun p => p.2.sizeBytes)).sum

/-- `_cleanup_expired`: drop every entry with `expires_at <= now` and count
each drop as an expiration. -/
def cleanupExpired (now : Nat) (st : CacheState) : CacheState :=
  let expired := st.entries.filter (fun p => p.2.expiresAt ≤ now)
  { st with
    entries := st.entries.filter (fun p => !(p.2.expiresAt ≤ now)),
    expirations := st.expirations + expired.length }

/-- Worker for `_evict_lru`: walk the entries sorted by ascending
`last_accessed`, deleting until the freed bytes reach the requested amount. -/
def evictGo (bytesNeeded : Nat) :
    Nat → List (String × CacheEntry) → List String
  | _, [] => []
  | bytesFreed, (key, e) :: rest =>
    if bytesNeeded ≤ bytesFreed then []
    else key :: evictGo bytesNeeded (bytesFreed + e.sizeBytes) rest

/-- `_evict_lru`. -/
def evictLru (bytesNeeded : Nat) (st : CacheState) : CacheState :=
  let sorted := sortByKey
    (fun a b => a.2.lastAccessed < b.2.lastAccessed) st.entries
  let victims := evictGo bytesNeeded 0 sorted
  { st with
    entries := st.entries.filter (fun p => !(victims.contains p.1)),
    evictions := st.evictions + victims.length }

/-- `CachingService.get`.  Returns the looked-up content (or `none` for a
miss) together with the updated state. -/
def cacheGet (cfg : CacheConfig) (st : CacheState) (url : String)
    (now : Nat) : Option Content × CacheState :=
  let key := makeCacheKey cfg url
  let st := cleanupExpired now st
  match st.entries.lookup key with
  | none => (none, { st with misses := st.misses + 1 })
  | some e =>
    if e.expiresAt ≤ now then
      (none, { st with
        entries := st.entries.filter (fun p => !(p.1 == key)),
        misses := st.misses + 1,
        expirations := st.expirations + 1 })
    else
      let e' := { e with lastAccessed := now }
      let st := { st with
        entries := st.entries.filter (fun p => !(p.1 == key)) ++ [(key, e')],
        hits := st.hits + 1 }
      match cfg.decompress e.compressedData with
      | some content => (some content, st)
      | none =>
        (none, { st with
          entries := st.entries.filter (fun p => !(p.1 == key)),
          misses := st.misses + 1 })

/-- `CachingService.set`.  The whole body is inside `try/except`; the only
fallible step of the model is compression, and a failure there leaves the
state untouched (the Python handler only logs). -/
def cacheSet (cfg : CacheConfig) (st : CacheState) (url : String)
    (content : Content) (now : Nat) : CacheState :=
  let key := makeCacheKey cfg url
  match cfg.compress content with
  | none => st
  | some compressedData =>
    let sizeBytes := compressedData.length
    let expiresAt := now + cfg.ttlSeconds
    let st := cleanupExpired now st
    let currentStorage := storageBytes st
    let currentStorage :=
      match st.entries.lookup key with
      | some old => currentStorage - old.sizeBytes
      | none => currentStorage
    let spaceNeeded := currentStorage + sizeBytes - cfg.maxStorageBytes
    let st := if 0 < spaceNeeded then evictLru spaceNeeded st else st
    { st with
      entries := st.entries.filter (fun p => !(p.1 == key)) ++
        [(key, ⟨compressedData, expiresAt, sizeBytes, now⟩)] }

/-- `CachingService.invalidate`. -/
def cacheInvalidate (cfg : CacheConfig) (st : CacheState) (url : String) :
    Bool × CacheState :=
  let key := makeCacheKey cfg url
  match st.entries.lookup key with
  | some _ =>
    (true, { st with entries := st.entries.filter (fun p => !(p.1 == key)) })
  | none => (false, st)

/-- `CachingService.clear`. -/
def cacheClear (st : CacheState) : CacheState :=
  { st with entries := [] }

/-- One cache operation of the public interface, with its invocation time. -/
inductive CacheOp where
  | setOp (url : String) (content : Content) (now : Nat)
  | getOp (url : String) (now : Nat)
  | invalidateOp (url : String)
  | clearOp
deriving DecidableEq, Repr

def applyOp (cfg : CacheConfig) (st : CacheState) : CacheOp → CacheState
  | .setOp url content now => cacheSet cfg st url content now
  | .getOp url now => (cacheGet cfg st url now).2
  | .invalidateOp url => (cacheInvalidate cfg st url).2
  | .clearOp => cacheClear st

def applyOps (cfg : CacheConfig) (st : CacheState) : List CacheOp → CacheState
  | [] => st
  | op :: rest => applyOps cfg (applyOp cfg st op) rest

/-! ## Theorems -/

/-- Let-free unfolding of `removeLineNumbers`. -/
theorem removeLineNumbers_eq (x : String) :
    removeLineNumbers x =
      (if (lineMatches (splitLines x)).length < 2 ∨
          (splitLines x).length > 2 * (lineMatches (splitLines x)).length then x
       else if !consecutiveNums
          ((lineMatches (splitLines x)).map fun p => p.2.2.1) then x
       else joinLines ((splitLines x).map stripLine)) := by
  unfold removeLineNumbers
  rcases h1 : decide ((lineMatches (splitLines x)).length < 2) with _ | _ <;>
    rcases h2 : decide ((splitLines x).length >
      2 * (lineMatches (splitLines x)).length) with _ | _ <;>
    simp_all

/-- Let-free unfolding of `stripGate`. -/
theorem stripGate_eq (x : String) :
    stripGate x = (decide (2 ≤ (lineMatches (splitLines x)).length) &&
      decide ((splitLines x).length ≤ 2 * (lineMatches (splitLines x)).length) &&
      consecutiveNums ((lineMatches (splitLines x)).map fun p => p.2.2.1)) :=
  rfl

/-- If the three-way gate fails, `_remove_line_numbers` returns its input
unchanged. -/
theorem removeLineNumbers_of_gate_false (x : String) (h : stripGate x = false) :
    removeLineNumbers x = x := by
  rw [stripGate_eq] at h
  rw [removeLineNumbers_eq]
  simp only [Bool.and_eq_false_iff, decide_eq_false_iff_not, not_le] at h
  by_cases h1 : (lineMatches (splitLines x)).length < 2
  · simp [h1]
  · by_cases h2 : 2 * (lineMatches (splitLines x)).length < (splitLines x).length
    · simp [h2]
    · have h3 : consecutiveNums
          ((lineMatches (splitLines x)).map fun p => p.2.2.1) = false := by
        rcases h with (h | h) | h
        · omega
        · omega
        · exact h
      simp [h1, h2, h3]

/-- C6 counterexample: on a code sample whose lines carry two layers of
numbering, one stripping pass removes only the outer layer, and the result
again satisfies the gate, so a second pass strips again:
`strip(strip(x)) ≠ strip(x)` for `x = "1. 2. a\n2. 3. b"`. -/
theorem C6_counterexample :
    removeLineNumbers (removeLineNumbers ("1. 2. a" ++ "\n" ++ "2. 3. b")) ≠
      removeLineNumbers ("1. 2. a" ++ "\n" ++ "2. 3. b") := by decide

/-- C6 (amended): the line-number stripper is a no-op unless at least two
lines match the numbered-line pattern, matched lines are at least half of
all lines, and the matched numbers are strictly consecutive; it is however
not idempotent in general — idempotence `strip(strip(x)) = strip(x)` holds
whenever the once-stripped text fails that gate, but a doubly-numbered
input is stripped again by the second pass. -/
theorem C6_line_number_stripper (x : String) :
    (stripGate x = false → removeLineNumbers x = x) ∧
    (stripGate (removeLineNumbers x) = false →
      removeLineNumbers (removeLineNumbers x) = removeLineNumbers x) :=
  ⟨removeLineNumbers_of_gate_false x,
   removeLineNumbers_of_gate_false (removeLineNumbers x)⟩

/-- Witness for C6: both hypotheses of the amended statement are satisfiable
at `x = "1. pip install x\n2. pip install y"` (the spec's own end-to-end
scenario), whose stripped form no longer matches the gate. -/
theorem C6_witness :
    removeLineNumbers (removeLineNumbers
        ("1. pip install x" ++ "\n" ++ "2. pip install y")) =
      removeLineNumbers ("1. pip install x" ++ "\n" ++ "2. pip install y") :=
  (C6_line_number_stripper
    ("1. pip install x" ++ "\n" ++ "2. pip install y")).2 (by decide)

/-- A string of positive length is not the empty string. -/
theorem ne_empty_of_length_pos (s : String) (h : 0 < s.length) : s ≠ "" := by
  intro he
  rw [he] at h
  exact absurd h (by decide)

/-- A nonempty string has positive length. -/
theorem length_pos_of_ne_empty (s : String) (h : s ≠ "") : 0 < s.length := by
  cases s with
  | mk data =>
    cases data with
    | nil => exact absurd rfl h
    | cons c cs => simp [String.length]

/-- A string append whose left part is nonempty is nonempty. -/
theorem append_ne_empty_left (a b : String) (ha : a ≠ "") : a ++ b ≠ "" := by
  apply ne_empty_of_length_pos
  rw [String.length_append]
  have := length_pos_of_ne_empty a ha
  omega

/-- `joinLines` of at least two lines contains a newline separator and is
nonempty. -/
theorem joinLines_two_ne_empty (a b : String) (t : List String) :
    joinLines (a :: b :: t) ≠ "" := by
  show a ++ "\n" ++ joinLines (b :: t) ≠ ""
  apply ne_empty_of_length_pos
  rw [String.length_append, String.length_append]
  have : (0 : Nat) < String.length "\n" := by decide
  omega

/-- `joinLines` of a nonempty list of nonempty strings is nonempty. -/
theorem joinLines_ne_empty (l : List String) (hne : l ≠ [])
    (h : ∀ x ∈ l, x ≠ "") : joinLines l ≠ "" := by
  match l with
  | [x] => exact h x (by simp)
  | x :: y :: t => exact joinLines_two_ne_empty x y t

/-- The matched-line list is never longer than the line list. -/
theorem lineMatches_length_le (lines : List String) :
    (lineMatches lines).length ≤ lines.length := by
  unfold lineMatches
  calc (lines.enum.filterMap fun p =>
      (matchNumberedLine p.2).map fun m => (p.1, m)).length
      ≤ lines.enum.length := List.length_filterMap_le _ _
    _ = lines.length := List.enum_length

/-- `_remove_line_numbers` maps nonempty text to nonempty text: either the
gate fails and the text is unchanged, or at least two lines existed and the
result still contains their newline separator. -/
theorem removeLineNumbers_ne_empty (x : String) (hx : x ≠ "") :
    removeLineNumbers x ≠ "" := by
  rw [removeLineNumbers_eq]
  split
  · exact hx
  · split
    · exact hx
    · rename_i hgate _
      have hms : 2 ≤ (lineMatches (splitLines x)).length := by omega
      have hlines : 2 ≤ (splitLines x).length :=
        le_trans hms (lineMatches_length_le _)
      have hmap : 2 ≤ ((splitLines x).map stripLine).length := by
        rw [List.length_map]; exact hlines
      match hm : (splitLines x).map stripLine with
      | [] => rw [hm] at hmap; exact absurd hmap (by decide)
      | [a] => rw [hm] at hmap; exact absurd hmap (by simp)
      | a :: c :: t => exact joinLines_two_ne_empty a c t

/-- Each rendered list-item line starts with a nonempty bullet or number
prefix. -/
theorem listItemLine_ne_empty (isUl : Bool) (i : Nat) (item : String) :
    listItemLine isUl i item ≠ "" := by
  unfold listItemLine
  split
  · exact append_ne_empty_left _ _ (by decide)
  · apply append_ne_empty_left
    apply ne_empty_of_length_pos
    rw [String.length_append]
    have : (0 : Nat) < String.length ". " := by decide
    omega

/-- `strTrim` of the empty string is empty, so a string with a nonempty trim
is nonempty. -/
theorem ne_empty_of_strTrim_ne_empty (s : String) (h : strTrim s ≠ "") :
    s ≠ "" := by
  intro he
  rw [he] at h
  exact h rfl

/-- Every block produced by `_element_to_block` with a type other than
`image` has nonempty text: the heading, paragraph, list, quote and code
branches all drop empty-text candidates before emission. -/
theorem elementToBlock_text_ne (blockId : String) (parent : Option Node)
    (el : Node) (b : ContentBlock)
    (h : elementToBlock blockId parent el = some b)
    (himg : b.type ≠ "image") : b.text ≠ "" := by
  unfold elementToBlock at h
  simp only [] at h
  repeat' split at h
  all_goals first
    | exact Option.noConfusion h
    | (cases h; exact absurd rfl himg)
    | (cases h
       apply removeLineNumbers_ne_empty
       apply ne_empty_of_strTrim_ne_empty
       simp_all)
    | (cases h
       apply joinLines_ne_empty
       · simp_all
       · intro x hx
         rcases List.mem_map.mp hx with ⟨p, _, hp⟩
         rw [← hp]
         exact listItemLine_ne_empty _ _ _)
    | (cases h; simp_all)

/-- Every block emitted by the main loop comes from an `_element_to_block`
call. -/
theorem mainPass_mem (ids : Nat → String) (counter : Nat) (cands : List Cand)
    (pb : List Nat × ContentBlock) (h : pb ∈ mainPass ids counter cands) :
    ∃ i p e, elementToBlock i p e = some pb.2 := by
  induction cands generalizing counter with
  | nil => exact absurd h (List.not_mem_nil pb)
  | cons c rest ih =>
    rw [mainPass] at h
    split at h
    · exact ih counter h
    · split at h
      · rename_i b heq
        rcases List.mem_cons.mp h with h | h
        · exact ⟨ids counter, c.2.1.head?, c.2.2, by rw [heq, h]⟩
        · exact ih (counter + 1) h
      · exact ih (counter + 1) h

/-- Every block emitted for one tabbed container comes from an
`_element_to_block` call. -/
theorem tabBlocksGo_mem (ids : Nat → String) (counter : Nat)
    (l : List Cand) (pb : List Nat × ContentBlock)
    (h : pb ∈ (tabBlocksGo ids counter l).1) :
    ∃ i p e, elementToBlock i p e = some pb.2 := by
  induction l generalizing counter with
  | nil => exact absurd h (List.not_mem_nil pb)
  | cons d rest ih =>
    rw [tabBlocksGo] at h
    split at h
    · exact ih counter h
    · rename_i prePath preParent preNode heq
      simp only [] at h
      split at h
      · rename_i b hblk
        rcases List.mem_cons.mp h with h | h
        · exact ⟨ids counter, preParent, preNode, by rw [hblk, h]⟩
        · exact ih (counter + 1) h
      · exact ih (counter + 1) h

/-- Every block emitted by the tab pre-pass comes from an
`_element_to_block` call. -/
theorem tabPass_mem (ids : Nat → String) (counter : Nat)
    (decomposed : List (List Nat)) (containers : List Cand)
    (pb : List Nat × ContentBlock)
    (h : pb ∈ (tabPass ids counter decomposed containers).1) :
    ∃ i p e, elementToBlock i p e = some pb.2 := by
  induction containers generalizing counter decomposed with
  | nil => exact absurd h (List.not_mem_nil pb)
  | cons c rest ih =>
    rw [tabPass] at h
    split at h
    · exact ih counter decomposed h
    · simp only [] at h
      rcases List.mem_append.mp h with h | h
      · exact tabBlocksGo_mem ids counter _ pb h
      · exact ih _ _ h

/-- Every block in the output of `_parse_html_to_blocks` comes from an
`_element_to_block` call. -/
theorem parseHtmlToBlocks_mem (ids : Nat → String) (doc : Node)
    (b : ContentBlock) (h : b ∈ parseHtmlToBlocks ids doc) :
    ∃ i p e, elementToBlock i p e = some b := by
  unfold parseHtmlToBlocks at h
  rcases List.mem_map.mp h with ⟨pb, hpb, rfl⟩
  unfold parseHtmlToBlocksAnn at hpb
  simp only [] at hpb
  rcases List.mem_append.mp hpb with h1 | h1
  · exact tabPass_mem _ _ _ _ _ h1
  · exact mainPass_mem _ _ _ _ h1

/-- C2 counterexample: an `img` element with a `src` but empty `alt` is
emitted as an `image` block whose `text` is the empty string (the image
branch of `_element_to_block` performs no empty-text check), contradicting
the claim that every emitted block has nonempty text. -/
theorem C2_counterexample :
    (parseHtmlToBlocks (fun _ => "id")
        (Node.elem "[document]" [] "" [] (nl [Node.elem "body" [] "" []
          (nl [Node.elem "img" [] "" [("src", "x.png")] (nl [])])]))).map
      (fun b => (b.type, b.text)) = [("image", "")] := by decide

/-- C2 (amended): every emitted `ContentBlock` of type heading, paragraph,
list, quote or code has nonempty text — empty-text candidates of those
types are dropped before emission; `image` blocks, however, are emitted
with `text` equal to the (possibly empty) alt text or caption. -/
theorem C2_nonempty_text (ids : Nat → String) (doc : Node) (b : ContentBlock)
    (hb : b ∈ parseHtmlToBlocks ids doc) (ht : b.type ≠ "image") :
    b.text ≠ "" := by
  rcases parseHtmlToBlocks_mem ids doc b hb with ⟨i, p, e, he⟩
  exact elementToBlock_text_ne i p e b he ht

/-- Witness for C2: the heading block extracted from a one-heading document
has nonempty text. -/
theorem C2_witness :
    (ContentBlock.mk "id0" "heading" "T" [("level", MVal.n 1)]).text ≠ "" :=
  C2_nonempty_text (fun n => "id" ++ toString n)
    (Node.elem "[document]" [] "" [] (nl [Node.elem "body" [] "" []
      (nl [Node.elem "h1" [] "" [] (nl [Node.text "T"])])]))
    (ContentBlock.mk "id0" "heading" "T" [("level", MVal.n 1)])
    (by
      rw [show parseHtmlToBlocks (fun n => "id" ++ toString n)
          (Node.elem "[document]" [] "" [] (nl [Node.elem "body" [] "" []
            (nl [Node.elem "h1" [] "" [] (nl [Node.text "T"])])])) =
          [ContentBlock.mk "id0" "heading" "T" [("level", MVal.n 1)]] from
        by decide]
      exact List.mem_singleton_self _)
    (by decide)

/-! ### C1: document order of the emitted blocks

Preorder (document) order on tree addresses is the lexicographic order on
paths. -/

/-- Strict lexicographic order on tree addresses; a proper prefix (an
ancestor) precedes its extensions, matching document preorder. -/
def pathLtB : List Nat → List Nat → Bool
  | [], [] => false
  | [], _ :: _ => true
  | _ :: _, [] => false
  | a :: p, b :: q =>
    if a < b then true else if a == b then pathLtB p q else false

/-- Non-strict document order on tree addresses. -/
def pathLeB (p q : List Nat) : Bool := pathLtB p q || p == q

/-- An address strictly precedes any of its proper extensions. -/
theorem pathLtB_extension (p : List Nat) (x : Nat) (r : List Nat) :
    pathLtB p (p ++ x :: r) = true := by
  induction p with
  | nil => rfl
  | cons a t ih => simp [pathLtB, ih]

/-- Two addresses branching at the same depth compare by their child
indices. -/
theorem pathLtB_branch (p : List Nat) (i j : Nat) (r s : List Nat)
    (hij : i < j) : pathLtB (p ++ i :: r) (p ++ j :: s) = true := by
  induction p with
  | nil => simp [pathLtB, hij]
  | cons a t ih => simp [pathLtB, ih]

/-- The relation compared by the order theorems: earlier in the list implies
strictly earlier source address. -/
def annLt (a b : List Nat × α) : Prop := pathLtB a.1 b.1 = true

mutual
/-- Every descendant collected from the suffix of a child list starting at
index `i` has an address `path ++ j :: rest` with `i ≤ j`. -/
theorem descendantsList_path_shape (path : List Nat) (i : Nat)
    (anc : List Node) (ns : NodeList) :
    ∀ c ∈ descendantsList path i anc ns,
      ∃ j rest, c.1 = path ++ j :: rest ∧ i ≤ j := by
  match ns with
  | .nil => intro c hc; exact absurd hc (List.not_mem_nil c)
  | .cons n ns' =>
    intro c hc
    rw [descendantsList] at hc
    rcases List.mem_append.mp hc with hc | hc
    · rcases descendantsEntry_path_shape path i anc n c hc with ⟨rest, hj⟩
      exact ⟨i, rest, hj, le_refl i⟩
    · rcases descendantsList_path_shape path (i + 1) anc ns' c hc with
        ⟨j, rest, hj, hij⟩
      exact ⟨j, rest, hj, by omega⟩

/-- Every entry contributed by the child at index `i` has an address
`path ++ i :: rest`. -/
theorem descendantsEntry_path_shape (path : List Nat) (i : Nat)
    (anc : List Node) (n : Node) :
    ∀ c ∈ descendantsEntry path i anc n, ∃ rest, c.1 = path ++ i :: rest := by
  match n with
  | .text s => intro c hc; exact absurd hc (List.not_mem_nil c)
  | .elem t cs id' a children =>
    intro c hc
    rcases List.mem_cons.mp hc with hc | hc
    · exact ⟨[], by rw [hc]⟩
    · rcases descendantsList_path_shape (path ++ [i]) 0
        (Node.elem t cs id' a children :: anc) children c hc with
        ⟨j, rest, hj, _⟩
      exact ⟨j :: rest, by rw [hj, List.append_assoc]; rfl⟩
end

/-- Every descendant collected below `path` has an address extending
`path`. -/
theorem descendantsNode_path_shape (path : List Nat) (anc : List Node)
    (n : Node) :
    ∀ c ∈ descendantsNode path anc n, ∃ j rest, c.1 = path ++ j :: rest := by
  match n with
  | .text s => intro c hc; exact absurd hc (List.not_mem_nil c)
  | .elem t cs i a children =>
    intro c hc
    rcases descendantsList_path_shape path 0 (Node.elem t cs i a children :: anc)
      children c hc with ⟨j, rest, hj, _⟩
    exact ⟨j, rest, hj⟩

mutual
/-- The descendants of a child-list suffix are listed in strictly increasing
document order. -/
theorem descendantsList_sorted (path : List Nat) (i : Nat) (anc : List Node)
    (ns : NodeList) : (descendantsList path i anc ns).Pairwise annLt := by
  match ns with
  | .nil => exact List.Pairwise.nil
  | .cons n ns' =>
    rw [descendantsList]
    apply List.pairwise_append.mpr
    refine ⟨descendantsEntry_sorted path i anc n,
      descendantsList_sorted path (i + 1) anc ns', ?_⟩
    intro x hx y hy
    rcases descendantsEntry_path_shape path i anc n x hx with ⟨rest, hxj⟩
    rcases descendantsList_path_shape path (i + 1) anc ns' y hy with
      ⟨k, rest2, hyk, hik⟩
    show pathLtB x.1 y.1 = true
    rw [hxj, hyk]
    exact pathLtB_branch path i k rest rest2 (by omega)

/-- The entries contributed by one child are listed in strictly increasing
document order. -/
theorem descendantsEntry_sorted (path : List Nat) (i : Nat) (anc : List Node)
    (n : Node) : (descendantsEntry path i anc n).Pairwise annLt := by
  match n with
  | .text s => exact List.Pairwise.nil
  | .elem t cs id' a children =>
    apply List.pairwise_cons.mpr
    refine ⟨?_, descendantsList_sorted (path ++ [i]) 0
      (Node.elem t cs id' a children :: anc) children⟩
    intro c hc
    rcases descendantsList_path_shape (path ++ [i]) 0
      (Node.elem t cs id' a children :: anc) children c hc with
      ⟨j, rest, hj, _⟩
    show pathLtB (path ++ [i]) c.1 = true
    rw [hj]
    exact pathLtB_extension (path ++ [i]) j rest
end

/-- The descendants of a node are listed in strictly increasing document
order. -/
theorem descendantsNode_sorted (path : List Nat) (anc : List Node)
    (n : Node) : (descendantsNode path anc n).Pairwise annLt := by
  match n with
  | .text s => exact List.Pairwise.nil
  | .elem t cs i a children =>
    exact descendantsList_sorted path 0 (Node.elem t cs i a children :: anc)
      children

/-- The first components of the main loop's output all occur among the
candidates' addresses. -/
theorem mainPass_fst_mem (ids : Nat → String) (counter : Nat)
    (cands : List Cand) (y : List Nat × ContentBlock)
    (hy : y ∈ mainPass ids counter cands) :
    y.1 ∈ cands.map (fun c => c.1) := by
  induction cands generalizing counter with
  | nil => exact absurd hy (List.not_mem_nil y)
  | cons d rest ih =>
    rw [mainPass] at hy
    split at hy
    · exact List.mem_cons_of_mem _ (ih counter hy)
    · split at hy
      · rcases List.mem_cons.mp hy with hy | hy
        · rw [hy]; exact List.mem_cons_self _ _
        · exact List.mem_cons_of_mem _ (ih (counter + 1) hy)
      · exact List.mem_cons_of_mem _ (ih (counter + 1) hy)

/-- The main loop preserves source order: the emitted annotated blocks of
`mainPass` inherit the candidates' strictly increasing document order. -/
theorem mainPass_sorted (ids : Nat → String) (counter : Nat)
    (cands : List Cand)
    (h : (cands.map (fun c => c.1)).Pairwise (fun p q => pathLtB p q = true)) :
    (mainPass ids counter cands).Pairwise annLt := by
  induction cands generalizing counter with
  | nil => exact List.Pairwise.nil
  | cons c rest ih =>
    rw [List.map_cons, List.pairwise_cons] at h
    rw [mainPass]
    split
    · exact ih counter h.2
    · split
      · apply List.pairwise_cons.mpr
        refine ⟨?_, ih (counter + 1) h.2⟩
        intro y hy
        exact h.1 y.1 (mainPass_fst_mem ids (counter + 1) rest y hy)
      · exact ih (counter + 1) h.2

/-- The candidate list of the main loop (`contentRootOf`, `find_all` over the
remaining elements). -/
def candsOf (doc : Node) : List Cand :=
  let root := contentRootOf doc
  descendantsNode root.1 root.2.1 root.2.2

/-- The blocks emitted by the tab pre-pass of `_parse_html_to_blocks`. -/
def tabPartOf (ids : Nat → String) (doc : Node) :
    List (List Nat × ContentBlock) :=
  (tabPass ids 0 [] (tabContainers (candsOf doc))).1

/-- The filtered candidate list seen by the main loop. -/
def mainCandsOf (ids : Nat → String) (doc : Node) : List Cand :=
  (candsOf doc).filter fun c =>
    blockTags.contains c.2.2.tagOf &&
      !((tabPass ids 0 [] (tabContainers (candsOf doc))).2.2.any fun d =>
        d.isPrefixOf c.1)

/-- The blocks emitted by the main loop of `_parse_html_to_blocks`. -/
def mainPartOf (ids : Nat → String) (doc : Node) :
    List (List Nat × ContentBlock) :=
  mainPass ids (tabPass ids 0 [] (tabContainers (candsOf doc))).2.1
    (mainCandsOf ids doc)

/-- Document used by the C1 counterexample: a paragraph, then a
tabbed-content container holding one code sample, then another paragraph. -/
def c1Doc : Node :=
  Node.elem "[document]" [] "" [] (nl [Node.elem "html" [] "" [] (nl [
    Node.elem "body" [] "" [] (nl [
      Node.elem "p" [] "" [] (nl [Node.text "A"]),
      Node.elem "div" ["tab-content"] "" [] (nl [
        Node.elem "pre" [] "" [] (nl [
          Node.elem "code" ["language-py"] "" [] (nl [Node.text "X"])])]),
      Node.elem "p" [] "" [] (nl [Node.text "B"])])])])

/-- C1 counterexample: with a tabbed-content container between two
paragraphs, `_parse_html_to_blocks` emits the container's code block first
(the tab pre-pass runs before the main loop), so the output is not in
filtered document order: the paragraph that precedes the tab container in
the document appears after the tab code block in the output. -/
theorem C1_counterexample :
    ¬ (parseHtmlToBlocksAnn (fun _ => "id") c1Doc).Pairwise
        (fun a b => pathLeB a.1 b.1 = true) := by
  intro h
  rw [show parseHtmlToBlocksAnn (fun _ => "id") c1Doc =
      [([0, 0, 1, 0], ⟨"id", "code", "X", [("language", MVal.s "py")]⟩),
       ([0, 0, 0], ⟨"id", "paragraph", "A", []⟩),
       ([0, 0, 2], ⟨"id", "paragraph", "B", []⟩)] from by decide] at h
  rcases List.pairwise_cons.mp h with ⟨h01, _⟩
  have h1 := h01 ([0, 0, 0], ⟨"id", "paragraph", "A", []⟩)
    (List.mem_cons_self _ _)
  exact absurd h1 (by decide)

/-- C1 (amended): the output of `_parse_html_to_blocks` is the blocks of
the tab pre-pass followed by the blocks of the main loop, and the main
loop's blocks are in strictly increasing filtered document order of the
cleaned HTML (no reordering there); tab-container code blocks, however,
are hoisted in front of all main-loop blocks, including content that
precedes the tab widget in the document. -/
theorem C1_block_order (ids : Nat → String) (doc : Node) :
    parseHtmlToBlocksAnn ids doc = tabPartOf ids doc ++ mainPartOf ids doc ∧
    (mainPartOf ids doc).Pairwise annLt := by
  constructor
  · rfl
  · apply mainPass_sorted
    apply List.pairwise_map.mpr
    exact ((descendantsNode_sorted (contentRootOf doc).1 (contentRootOf doc).2.1
      (contentRootOf doc).2.2).sublist (List.filter_sublist _))

/-! ### C3: determinism and the generated ids -/

/-- Erase the id of an annotated block. -/
def eraseAnn (x : List Nat × ContentBlock) : List Nat × ContentBlock :=
  (x.1, eraseId x.2)

set_option maxHeartbeats 1000000 in
/-- `_element_to_block` depends on the drawn id only through the emitted
block's `id` field. -/
theorem elementToBlock_erase_eq (i1 i2 : String) (p : Option Node) (e : Node) :
    (elementToBlock i1 p e).map eraseId = (elementToBlock i2 p e).map eraseId := by
  unfold elementToBlock
  simp only []
  by_cases h1 : headingTags.contains e.tagOf = true
  · simp only [if_pos h1]
    by_cases h2 : (stripText e == "") = true
    · simp only [if_pos h2]
    · simp only [if_neg h2]; rfl
  · simp only [if_neg h1]
    by_cases h2 : (e.tagOf == "p") = true
    · simp only [if_pos h2]
      by_cases h3 : (stripText e == "") = true
      · simp only [if_pos h3]
      · simp only [if_neg h3]; rfl
    · simp only [if_neg h2]
      by_cases h3 : (e.tagOf == "ul" || e.tagOf == "ol") = true
      · simp only [if_pos h3]
        by_cases h4 : (List.filter (fun item => item != "")
            (List.map stripText (directChildrenWithTag "li" e))).isEmpty = true
        · simp only [if_pos h4]
        · simp only [if_neg h4]; rfl
      · simp only [if_neg h3]
        by_cases h4 : (e.tagOf == "blockquote") = true
        · simp only [if_pos h4]
          by_cases h5 : (stripText e == "") = true
          · simp only [if_pos h5]
          · simp only [if_neg h5]; rfl
        · simp only [if_neg h4]
          by_cases h5 : (e.tagOf == "pre" || e.tagOf == "code") = true
          · simp only [if_pos h5]
            by_cases h6 : (strTrim (rawText e) == "") = true
            · simp only [if_pos h6]
            · simp only [if_neg h6]; rfl
          · simp only [if_neg h5]
            by_cases h6 : (e.tagOf == "img") = true
            · simp only [if_pos h6]
              by_cases h7 : (e.attrD "src" == "") = true
              · simp only [if_pos h7]
              · simp only [if_neg h7]; rfl
            · simp only [if_neg h6]
              by_cases h7 : (e.tagOf == "figure") = true
              · simp only [if_pos h7]
                cases hf : findDesc (fun n => n.tagOf == "img") e with
                | none => rfl
                | some c =>
                  obtain ⟨q, anc2, img⟩ := c
                  simp only []
                  by_cases h8 : (img.attrD "src" == "") = true
                  · simp only [if_pos h8]
                  · simp only [if_neg h8]; rfl
              · simp only [if_neg h7]

/-- The main loop is deterministic modulo ids: two id supplies (and starting
counters) yield the same id-erased annotated blocks. -/
theorem mainPass_erase (ids1 ids2 : Nat → String) (cands : List Cand) :
    ∀ c1 c2, (mainPass ids1 c1 cands).map eraseAnn =
      (mainPass ids2 c2 cands).map eraseAnn := by
  induction cands with
  | nil => intro c1 c2; rfl
  | cons c rest ih =>
    intro c1 c2
    rw [mainPass, mainPass]
    split
    · exact ih c1 c2
    · have he := elementToBlock_erase_eq (ids1 c1) (ids2 c2) c.2.1.head? c.2.2
      cases h1 : elementToBlock (ids1 c1) c.2.1.head? c.2.2 with
      | none =>
        cases h2 : elementToBlock (ids2 c2) c.2.1.head? c.2.2 with
        | none => exact ih (c1 + 1) (c2 + 1)
        | some b2 => rw [h1, h2] at he; exact absurd he (by simp)
      | some b1 =>
        cases h2 : elementToBlock (ids2 c2) c.2.1.head? c.2.2 with
        | none => rw [h1, h2] at he; exact absurd he (by simp)
        | some b2 =>
          rw [h1, h2] at he
          simp at he
          simp only [List.map_cons]
          rw [ih (c1 + 1) (c2 + 1)]
          show (c.1, eraseId b1) :: _ = (c.1, eraseId b2) :: _
          rw [he]

/-- The per-container tab emission is deterministic modulo ids. -/
theorem tabBlocksGo_erase (ids1 ids2 : Nat → String) (l : List Cand) :
    ∀ c1 c2, (tabBlocksGo ids1 c1 l).1.map eraseAnn =
      (tabBlocksGo ids2 c2 l).1.map eraseAnn := by
  induction l with
  | nil => intro c1 c2; rfl
  | cons d rest ih =>
    intro c1 c2
    rw [tabBlocksGo, tabBlocksGo]
    split
    · exact ih c1 c2
    · rename_i prePath preParent preNode heq
      simp only []
      have he := elementToBlock_erase_eq (ids1 c1) (ids2 c2) preParent preNode
      cases h1 : elementToBlock (ids1 c1) preParent preNode with
      | none =>
        cases h2 : elementToBlock (ids2 c2) preParent preNode with
        | none => exact ih (c1 + 1) (c2 + 1)
        | some b2 => rw [h1, h2] at he; exact absurd he (by simp)
      | some b1 =>
        cases h2 : elementToBlock (ids2 c2) preParent preNode with
        | none => rw [h1, h2] at he; exact absurd he (by simp)
        | some b2 =>
          rw [h1, h2] at he
          simp at he
          simp only [List.map_cons]
          rw [ih (c1 + 1) (c2 + 1)]
          show (prePath, eraseId b1) :: _ = (prePath, eraseId b2) :: _
          rw [he]

/-- The set of decomposed container paths does not depend on the id supply
or counter. -/
theorem tabPass_decomposed (ids1 ids2 : Nat → String) (l : List Cand) :
    ∀ c1 c2 dec, (tabPass ids1 c1 dec l).2.2 = (tabPass ids2 c2 dec l).2.2 := by
  induction l with
  | nil => intro c1 c2 dec; rfl
  | cons c rest ih =>
    intro c1 c2 dec
    rw [tabPass, tabPass]
    split
    · exact ih c1 c2 dec
    · exact ih _ _ _

/-- The tab pre-pass is deterministic modulo ids. -/
theorem tabPass_erase (ids1 ids2 : Nat → String) (l : List Cand) :
    ∀ c1 c2 dec, (tabPass ids1 c1 dec l).1.map eraseAnn =
      (tabPass ids2 c2 dec l).1.map eraseAnn := by
  induction l with
  | nil => intro c1 c2 dec; rfl
  | cons c rest ih =>
    intro c1 c2 dec
    rw [tabPass, tabPass]
    split
    · exact ih c1 c2 dec
    · simp only [List.map_append]
      have hcb : (tabContainerBlocks ids1 c1 c).1.map eraseAnn =
          (tabContainerBlocks ids2 c2 c).1.map eraseAnn :=
        tabBlocksGo_erase ids1 ids2 _ c1 c2
      rw [hcb, ih _ _ _]

/-- `_parse_html_to_blocks` is deterministic modulo ids at the annotated
level. -/
theorem parseHtmlToBlocksAnn_erase (ids1 ids2 : Nat → String) (doc : Node) :
    (parseHtmlToBlocksAnn ids1 doc).map eraseAnn =
      (parseHtmlToBlocksAnn ids2 doc).map eraseAnn := by
  show ((tabPass ids1 0 [] _).1 ++ mainPass ids1 _ _).map eraseAnn =
    ((tabPass ids2 0 [] _).1 ++ mainPass ids2 _ _).map eraseAnn
  rw [List.map_append, List.map_append]
  rw [tabPass_erase ids1 ids2 _ 0 0 []]
  rw [tabPass_decomposed ids1 ids2 _ 0 0 []]
  rw [mainPass_erase ids1 ids2 _ _ _]

/-- C3 counterexample: two runs of the pipeline on the same input document
with different uuid draws yield different block lists — the `id` fields
differ, so the output is not byte-identical across runs. -/
theorem C3_counterexample :
    parseHtmlToBlocks (fun _ => "run1-uuid")
        (Node.elem "[document]" [] "" [] (nl [Node.elem "body" [] "" []
          (nl [Node.elem "p" [] "" [] (nl [Node.text "A"])])])) ≠
      parseHtmlToBlocks (fun _ => "run2-uuid")
        (Node.elem "[document]" [] "" [] (nl [Node.elem "body" [] "" []
          (nl [Node.elem "p" [] "" [] (nl [Node.text "A"])])])) := by decide

/-- C3 (amended): block segmentation is deterministic modulo the generated
ids — for any two uuid supplies (two runs), the outputs agree exactly after
erasing each block's `id` field; every other byte of the block list is a
function of the input document alone.  (The `id` fields themselves are fresh
`uuid.uuid4()` draws and differ between runs, and metadata derived from
blocks, such as the heading structure, embeds those ids.) -/
theorem C3_deterministic_modulo_ids (ids1 ids2 : Nat → String) (doc : Node) :
    (parseHtmlToBlocks ids1 doc).map eraseId =
      (parseHtmlToBlocks ids2 doc).map eraseId := by
  unfold parseHtmlToBlocks
  have h := parseHtmlToBlocksAnn_erase ids1 ids2 doc
  have h2 := congrArg (List.map (fun x => x.2)) h
  simpa [List.map_map, Function.comp, eraseAnn] using h2

/-! ### C9: the aside asymmetry of the noise filter -/

/-- `_is_navigation_or_sidebar` is the disjunction of the per-element noise
test over the elements it actually inspects. -/
theorem isNavigationOrSidebar_eq_any (chain : List Node) :
    isNavigationOrSidebar chain = (checkedElems chain).any elemNoisy := by
  induction chain with
  | nil => rfl
  | cons e rest ih =>
    cases rest with
    | nil => simp [isNavigationOrSidebar, checkedElems]
    | cons p t =>
      by_cases h : elemNoisy e = true
      · simp [isNavigationOrSidebar, checkedElems, h]
      · by_cases hb : boundaryTags.contains p.tagOf = true
        · have hb' : p.tagOf ∈ boundaryTags := by simpa using hb
          simp [isNavigationOrSidebar, checkedElems, h, hb']
        · rw [show isNavigationOrSidebar (e :: p :: t) =
              (if elemNoisy e then true
               else if boundaryTags.contains p.tagOf then false
               else isNavigationOrSidebar (p :: t)) from rfl]
          rw [show checkedElems (e :: p :: t) =
              e :: (if boundaryTags.contains p.tagOf then []
                    else checkedElems (p :: t)) from rfl]
          rw [if_neg h, if_neg hb, if_neg hb, List.any_cons]
          rw [ih]
          simp [h]

/-- C9: the noise filter treats `aside` ancestors asymmetrically.  For any
inspected element of the walk chain that is an `aside`: if its class string
carries no pull-quote marker (in particular if it has no classes at all),
the walk classifies the element as noise; if it does carry a pull marker,
the aside does not by itself cause a noise classification — the walk
returns noise only if some inspected element (including the aside, through
the generic class/id keyword tests) triggers another rule. -/
theorem C9_aside_asymmetry (chain : List Node) (a : Node)
    (ha : a ∈ checkedElems chain) (haside : a.tagOf = "aside") :
    (hasPullMarker a = false → isNavigationOrSidebar chain = true) ∧
    (hasPullMarker a = true →
      (∀ e ∈ checkedElems chain, e ≠ a → elemNoisy e = false) →
      noiseClassKeywords.any
        (fun k => strContains (classStr a.classesOf) k) = false →
      noiseIdKeywords.any
        (fun k => strContains (lowerStr a.idAttrOf) k) = false →
      isNavigationOrSidebar chain = false) := by
  constructor
  · intro hpm
    rw [isNavigationOrSidebar_eq_any]
    apply List.any_eq_true.mpr
    refine ⟨a, ha, ?_⟩
    unfold elemNoisy
    rw [haside]
    simp [hpm]
  · intro hpm hothers hclass hid
    rw [isNavigationOrSidebar_eq_any]
    apply List.any_eq_false.mpr
    intro e he
    by_cases hea : e = a
    · rw [hea]
      unfold elemNoisy
      rw [haside]
      simp [hpm, hclass, hid]
    · simp [hothers e he hea]

/-- Witness for C9: a blockquote whose parent is an `aside` with class
`pullquote` (the spec's own end-to-end scenario) is not filtered, and the
hypotheses of the asymmetry theorem hold there. -/
theorem C9_witness :
    isNavigationOrSidebar
      [Node.elem "blockquote" ["pullquote"] "" [] (nl [Node.text "Q!"]),
       Node.elem "aside" ["pullquote"] "" [] (nl []),
       Node.elem "body" [] "" [] (nl [])] = false :=
  (C9_aside_asymmetry
    [Node.elem "blockquote" ["pullquote"] "" [] (nl [Node.text "Q!"]),
     Node.elem "aside" ["pullquote"] "" [] (nl []),
     Node.elem "body" [] "" [] (nl [])]
    (Node.elem "aside" ["pullquote"] "" [] (nl []))
    (by
      rw [show checkedElems
          [Node.elem "blockquote" ["pullquote"] "" [] (nl [Node.text "Q!"]),
           Node.elem "aside" ["pullquote"] "" [] (nl []),
           Node.elem "body" [] "" [] (nl [])] =
          [Node.elem "blockquote" ["pullquote"] "" [] (nl [Node.text "Q!"]),
           Node.elem "aside" ["pullquote"] "" [] (nl [])] from rfl]
      exact List.mem_cons_of_mem _ (List.mem_cons_self _ _))
    rfl).2 rfl
    (by
      intro e he hne
      rw [show checkedElems
          [Node.elem "blockquote" ["pullquote"] "" [] (nl [Node.text "Q!"]),
           Node.elem "aside" ["pullquote"] "" [] (nl []),
           Node.elem "body" [] "" [] (nl [])] =
          [Node.elem "blockquote" ["pullquote"] "" [] (nl [Node.text "Q!"]),
           Node.elem "aside" ["pullquote"] "" [] (nl [])] from rfl] at he
      rcases List.mem_cons.mp he with h | h
      · rw [h]; rfl
      · rcases List.mem_cons.mp h with h | h
        · exact absurd h hne
        · exact absurd h (List.not_mem_nil e))
    rfl rfl

/-! ### C5: entries past their TTL are never returned as hits -/

/-- Association lookup misses when no entry carries the key. -/
theorem lookup_none_of_ne (k : String) (l : List (String × CacheEntry))
    (h : ∀ x ∈ l, x.1 ≠ k) : l.lookup k = none := by
  induction l with
  | nil => rfl
  | cons a t ih =>
    have hne : (k == a.1) = false := by
      have ha := h a (List.mem_cons_self a t)
      simp only [beq_eq_false_iff_ne]
      exact fun he => ha he.symm
    obtain ⟨ak, av⟩ := a
    rw [List.lookup]
    simp only at hne
    rw [hne]
    exact ih (fun x hx => h x (List.mem_cons_of_mem _ hx))

/-- `set`-then-`get` across the TTL boundary misses: the worker half of the
C5 statement. -/
theorem cacheGet_after_ttl (cfg : CacheConfig) (st : CacheState) (url : String)
    (content : Content) (payload : List Nat) (tset tget : Nat)
    (hc : cfg.compress content = some payload)
    (ht : tset + cfg.ttlSeconds < tget) :
    (cacheGet cfg (cacheSet cfg st url content tset) url tget).1 = none := by
  unfold cacheSet
  rw [hc]
  simp only []
  unfold cacheGet
  simp only []
  unfold cleanupExpired
  simp only [List.filter_append]
  rw [show (List.filter (fun p => !(p.2.expiresAt ≤ tget : Bool))
      [((makeCacheKey cfg url),
        (⟨payload, tset + cfg.ttlSeconds, payload.length, tset⟩ : CacheEntry))]) =
      [] by simp; omega]
  rw [List.append_nil]
  rw [lookup_none_of_ne (makeCacheKey cfg url) _ (by
    intro x hx
    have hx1 := (List.mem_filter.mp hx).1
    have hx2 := (List.mem_filter.mp hx1).2
    simpa using hx2)]

/-- A `get` hit always serves an entry that is unexpired at the read time:
the worker half of the C5 statement about physically present entries. -/
theorem cacheGet_hit_unexpired (cfg : CacheConfig) (st : CacheState)
    (url : String) (now : Nat) (c : Content)
    (h : (cacheGet cfg st url now).1 = some c) :
    ∃ e, (cleanupExpired now st).entries.lookup (makeCacheKey cfg url) =
        some e ∧ now < e.expiresAt := by
  unfold cacheGet at h
  simp only [] at h
  cases hl : (cleanupExpired now st).entries.lookup (makeCacheKey cfg url) with
  | none => rw [hl] at h; exact absurd h (by simp)
  | some e =>
    rw [hl] at h
    simp only [] at h
    by_cases hexp : e.expiresAt ≤ now
    · rw [if_pos hexp] at h
      exact absurd h (by simp)
    · exact ⟨e, rfl, by omega⟩

/-- C5: a key written by `set` at time `tset` under the configured TTL is a
miss for any `get` strictly later than `tset + ttl` — the freshly written
entry, still physically present when `get` begins, is removed by the expiry
sweep; and in general a `get` hit only ever serves an entry whose
`expires_at` lies strictly in the future, so an entry past its `expires_at`
is never returned as a hit even while physically present. -/
theorem C5_ttl_expiry (cfg : CacheConfig) :
    (∀ (st : CacheState) (url : String) (content : Content)
      (payload : List Nat) (tset tget : Nat),
      cfg.compress content = some payload → tset + cfg.ttlSeconds < tget →
      (cacheGet cfg (cacheSet cfg st url content tset) url tget).1 = none) ∧
    (∀ (st : CacheState) (url : String) (now : Nat) (c : Content),
      (cacheGet cfg st url now).1 = some c →
      ∃ e, (cleanupExpired now st).entries.lookup (makeCacheKey cfg url) =
          some e ∧ now < e.expiresAt) :=
  ⟨fun st url content payload tset tget hc ht =>
    cacheGet_after_ttl cfg st url content payload tset tget hc ht,
   fun st url now c h => cacheGet_hit_unexpired cfg st url now c h⟩

/-! ### C10: `set` catches internal failures -/

/-- C10: `CachingService.set` never propagates an internal failure to its
caller: when compression (the fallible serialize-and-gzip step inside the
`try` block) raises, `set` returns normally and leaves the cache state
exactly as it was — the handler only logs. -/
theorem C10_set_no_propagation (cfg : CacheConfig) (st : CacheState)
    (url : String) (content : Content) (now : Nat)
    (hc : cfg.compress content = none) :
    cacheSet cfg st url content now = st := by
  unfold cacheSet
  rw [hc]

/-- A configuration whose compression always fails, for the C10 witness. -/
def c10FailCfg : CacheConfig :=
  { ttlSeconds := 86400, maxStorageBytes := 100 * 1024 * 1024,
    hash := fun s => s, compress := fun _ => none,
    decompress := fun _ => none }

/-- Witness for C10: a `set` whose compression fails returns with the state
unchanged. -/
theorem C10_witness :
    cacheSet c10FailCfg CacheState.empty "https://example.com" "content" 0 =
      CacheState.empty :=
  C10_set_no_propagation c10FailCfg CacheState.empty "https://example.com"
    "content" 0 rfl

/-! ### C4: the storage quota -/

/-- Total size of an entry list. -/
def entriesStorage (l : List (String × CacheEntry)) : Nat :=
  (l.map (fun x => x.2.sizeBytes)).sum

theorem storageBytes_eq (st : CacheState) :
    storageBytes st = entriesStorage st.entries := rfl

theorem entriesStorage_append (l1 l2 : List (String × CacheEntry)) :
    entriesStorage (l1 ++ l2) = entriesStorage l1 + entriesStorage l2 := by
  unfold entriesStorage
  rw [List.map_append, List.sum_append]

/-- Filtering cannot increase storage. -/
theorem entriesStorage_filter_le (p : String × CacheEntry → Bool)
    (l : List (String × CacheEntry)) :
    entriesStorage (l.filter p) ≤ entriesStorage l := by
  induction l with
  | nil => exact le_refl 0
  | cons a t ih =>
    rw [List.filter_cons]
    by_cases h : p a = true
    · rw [if_pos h]
      show entriesStorage (a :: t.filter p) ≤ entriesStorage (a :: t)
      unfold entriesStorage at ih ⊢
      simp only [List.map_cons, List.sum_cons]
      omega
    · rw [if_neg h]
      calc entriesStorage (t.filter p) ≤ entriesStorage t := ih
        _ ≤ entriesStorage (a :: t) := by
          unfold entriesStorage
          simp only [List.map_cons, List.sum_cons]
          omega

/-- The storage of a list splits over a filter and its complement. -/
theorem entriesStorage_filter_add (p : String × CacheEntry → Bool)
    (l : List (String × CacheEntry)) :
    entriesStorage (l.filter p) + entriesStorage (l.filter fun x => !(p x)) =
      entriesStorage l := by
  induction l with
  | nil => rfl
  | cons a t ih =>
    rw [List.filter_cons, List.filter_cons]
    by_cases h : p a = true
    · rw [if_pos h, if_neg (by simp [h])]
      unfold entriesStorage at ih ⊢
      simp only [List.map_cons, List.sum_cons]
      omega
    · rw [if_neg h, if_pos (by simp [h])]
      unfold entriesStorage at ih ⊢
      simp only [List.map_cons, List.sum_cons]
      omega

/-- Stable insertion produces a permutation. -/
theorem insertByKey_perm (lt : α → α → Bool) (x : α) (l : List α) :
    List.Perm (insertByKey lt x l) (x :: l) := by
  induction l with
  | nil => exact List.Perm.refl _
  | cons y t ih =>
    rw [insertByKey]
    by_cases h : lt y x = true
    · rw [if_pos h]
      exact List.Perm.trans (List.Perm.cons y ih) (List.Perm.swap x y t)
    · rw [if_neg h]

/-- Insertion sort produces a permutation of its input. -/
theorem sortByKey_perm (lt : α → α → Bool) (l : List α) :
    List.Perm (sortByKey lt l) l := by
  induction l with
  | nil => exact List.Perm.refl _
  | cons x t ih =>
    rw [sortByKey]
    exact List.Perm.trans (insertByKey_perm lt x (sortByKey lt t))
      (List.Perm.cons x ih)

/-- Storage is invariant under permutation of the entries. -/
theorem entriesStorage_perm (l1 l2 : List (String × CacheEntry))
    (h : List.Perm l1 l2) : entriesStorage l1 = entriesStorage l2 :=
  List.Perm.sum_eq (List.Perm.map _ h)

/-- The eviction walk removes a prefix of the sorted entry list, stopping
once the freed bytes reach the requested amount (or the list is
exhausted). -/
theorem evictGo_spec (needed : Nat) :
    ∀ (l : List (String × CacheEntry)) (acc : Nat),
      ∃ k, evictGo needed acc l = (l.take k).map (fun p => p.1) ∧
        (needed ≤ acc + entriesStorage (l.take k) ∨ k = l.length) := by
  intro l
  induction l with
  | nil =>
    intro acc
    exact ⟨0, rfl, Or.inr rfl⟩
  | cons a t ih =>
    intro acc
    rw [evictGo]
    by_cases h : needed ≤ acc
    · refine ⟨0, by rw [if_pos h]; rfl, Or.inl ?_⟩
      simpa [entriesStorage] using h
    · rcases ih (acc + a.2.sizeBytes) with ⟨k, hk, hor⟩
      refine ⟨k + 1, ?_, ?_⟩
      · rw [if_neg h, hk]
        rfl
      · rcases hor with hor | hor
        · left
          rw [List.take_succ_cons]
          unfold entriesStorage at hor ⊢
          simp only [List.map_cons, List.sum_cons]
          omega
        · right
          simp [hor]

/-- After `_evict_lru`, either at least the requested bytes were freed, or
the cache was completely emptied. -/
theorem evictLru_spec (needed : Nat) (st : CacheState) :
    storageBytes (evictLru needed st) ≤ storageBytes st - needed ∨
    storageBytes (evictLru needed st) = 0 := by
  unfold evictLru
  simp only [storageBytes_eq]
  rcases evictGo_spec needed
      (sortByKey (fun a b => a.2.lastAccessed < b.2.lastAccessed) st.entries) 0
    with ⟨k, hk, hor⟩
  rw [hk]
  have hperm := sortByKey_perm
    (fun a b => a.2.lastAccessed < b.2.lastAccessed) st.entries
  set sorted := sortByKey (fun a b => a.2.lastAccessed < b.2.lastAccessed)
    st.entries with hsorted
  set victims := (sorted.take k).map (fun p => p.1) with hvict
  rcases hor with hor | hor
  · left
    -- every taken entry is removed by the filter
    have htake_mem : ∀ x ∈ sorted.take k, (victims.contains x.1) = true := by
      intro x hx
      have hmem : x.1 ∈ victims := by
        rw [hvict]
        exact List.mem_map.mpr ⟨x, hx, rfl⟩
      simpa using hmem
    have hsub0 : List.Sublist ((sorted.take k).filter
        (fun p => victims.contains p.1)) (sorted.filter
        (fun p => victims.contains p.1)) :=
      List.Sublist.filter _ (List.take_sublist k sorted)
    have hself : (sorted.take k).filter (fun p => victims.contains p.1) =
        sorted.take k := List.filter_eq_self.mpr htake_mem
    rw [hself] at hsub0
    have hsum : entriesStorage (sorted.take k) ≤
        entriesStorage (sorted.filter (fun p => victims.contains p.1)) := by
      unfold entriesStorage
      exact List.Sublist.sum_le_sum (List.Sublist.map _ hsub0)
        (by intro x hx; exact Nat.zero_le x)
    have hfa : entriesStorage (st.entries.filter
          (fun p => !(victims.contains p.1))) +
        entriesStorage (st.entries.filter
          (fun p => !(!(victims.contains p.1)))) =
        entriesStorage st.entries :=
      entriesStorage_filter_add _ st.entries
    have hfp : entriesStorage (sorted.filter (fun p => victims.contains p.1)) =
        entriesStorage (st.entries.filter (fun p => victims.contains p.1)) :=
      entriesStorage_perm _ _ (List.Perm.filter _ hperm)
    have hnn : (st.entries.filter (fun p => !(!(victims.contains p.1)))) =
        (st.entries.filter (fun p => victims.contains p.1)) := by
      apply List.filter_congr
      intro x hx
      simp
    rw [hnn] at hfa
    rw [hfp] at hsum
    omega
  · right
    -- the whole sorted list was evicted, so every entry's key is a victim
    have hall : ∀ x ∈ st.entries, (victims.contains x.1) = true := by
      intro x hx
      have hmem : x.1 ∈ victims := by
        rw [hvict, hor, List.take_length]
        exact List.mem_map.mpr ⟨x, (List.Perm.mem_iff hperm).mpr hx, rfl⟩
      simpa using hmem
    have : st.entries.filter (fun p => !(victims.contains p.1)) = [] := by
      apply List.filter_eq_nil_iff.mpr
      intro x hx
      simpa using hall x hx
    rw [this]
    rfl

/-- A missed lookup means no entry carries the key. -/
theorem lookup_none_forall (k : String) (l : List (String × CacheEntry))
    (h : l.lookup k = none) : ∀ x ∈ l, x.1 ≠ k := by
  induction l with
  | nil => intro x hx; exact absurd hx (List.not_mem_nil x)
  | cons a t ih =>
    intro x hx
    obtain ⟨ak, av⟩ := a
    rw [List.lookup] at h
    by_cases hk : (k == ak) = true
    · rw [hk] at h; exact absurd h (by simp)
    · rw [Bool.not_eq_true] at hk
      rw [hk] at h
      rcases List.mem_cons.mp hx with hx | hx
      · rw [hx]
        intro he
        simp only [] at he
        rw [he] at hk
        simp at hk
      · exact ih h x hx

/-- Removing the looked-up key costs at least the looked-up entry's size. -/
theorem lookup_filter_storage (k : String) (l : List (String × CacheEntry))
    (e : CacheEntry) (h : l.lookup k = some e) :
    entriesStorage (l.filter (fun p => !(p.1 == k))) + e.sizeBytes ≤
      entriesStorage l := by
  induction l with
  | nil => exact absurd h (by simp [List.lookup])
  | cons a t ih =>
    obtain ⟨ak, av⟩ := a
    rw [List.lookup] at h
    rw [List.filter_cons]
    by_cases hk : (k == ak) = true
    · rw [hk] at h
      simp only [Option.some.injEq] at h
      have hak : (ak == k) = true := by
        rw [beq_iff_eq] at hk ⊢
        exact hk.symm
      rw [if_neg (by simp [hak])]
      have hle := entriesStorage_filter_le (fun p => !(p.1 == k)) t
      unfold entriesStorage at hle ⊢
      simp only [List.map_cons, List.sum_cons]
      rw [← h]
      omega
    · rw [Bool.not_eq_true] at hk
      rw [hk] at h
      have hak : (ak == k) = false := by
        rw [beq_eq_false_iff_ne] at hk ⊢
        exact fun he => hk he.symm
      rw [if_pos (by simp [hak])]
      have := ih h
      unfold entriesStorage at this ⊢
      simp only [List.map_cons, List.sum_cons]
      omega

/-- The expiry sweep cannot increase storage. -/
theorem cleanupExpired_storage_le (now : Nat) (st : CacheState) :
    storageBytes (cleanupExpired now st) ≤ storageBytes st :=
  entriesStorage_filter_le _ st.entries

/-- The expiry sweep preserves a missed lookup. -/
theorem cleanupExpired_lookup_none (now : Nat) (st : CacheState) (k : String)
    (h : st.entries.lookup k = none) :
    (cleanupExpired now st).entries.lookup k = none := by
  apply lookup_none_of_ne
  intro x hx
  exact lookup_none_forall k st.entries h x (List.mem_filter.mp hx).1

/-- One `set` keeps storage within the quota, provided the written entry is
itself within the quota and its key is not currently live. -/
theorem cacheSet_storage_le (cfg : CacheConfig) (st : CacheState)
    (url : String) (content : Content) (now : Nat)
    (hsize : ∀ payload, cfg.compress content = some payload →
      payload.length ≤ cfg.maxStorageBytes)
    (hfresh : st.entries.lookup (makeCacheKey cfg url) = none)
    (hst : storageBytes st ≤ cfg.maxStorageBytes) :
    storageBytes (cacheSet cfg st url content now) ≤ cfg.maxStorageBytes := by
  unfold cacheSet
  cases hc : cfg.compress content with
  | none => exact hst
  | some payload =>
    simp only []
    have hp := hsize payload hc
    have h1 : (cleanupExpired now st).entries.lookup (makeCacheKey cfg url) =
        none := cleanupExpired_lookup_none now st _ hfresh
    rw [h1]
    simp only []
    have hcur : storageBytes (cleanupExpired now st) ≤ cfg.maxStorageBytes :=
      le_trans (cleanupExpired_storage_le now st) hst
    set st1 := cleanupExpired now st with hst1
    set cur := storageBytes st1 with hcurdef
    by_cases hneed : 0 < cur + payload.length - cfg.maxStorageBytes
    · rw [if_pos hneed]
      set st2 := evictLru (cur + payload.length - cfg.maxStorageBytes) st1
        with hst2
      have hev := evictLru_spec (cur + payload.length - cfg.maxStorageBytes) st1
      rw [← hst2] at hev
      show entriesStorage (st2.entries.filter
          (fun p => !(p.1 == makeCacheKey cfg url)) ++ [_]) ≤ _
      rw [entriesStorage_append]
      have hf : entriesStorage (st2.entries.filter
          (fun p => !(p.1 == makeCacheKey cfg url))) ≤ storageBytes st2 :=
        entriesStorage_filter_le _ st2.entries
      have hone : entriesStorage
          [((makeCacheKey cfg url),
            (⟨payload, now + cfg.ttlSeconds, payload.length, now⟩ :
              CacheEntry))] = payload.length := by
        simp [entriesStorage]
      rw [hone]
      rcases hev with hev | hev
      · omega
      · omega
    · rw [if_neg hneed]
      show entriesStorage (st1.entries.filter
          (fun p => !(p.1 == makeCacheKey cfg url)) ++ [_]) ≤ _
      rw [entriesStorage_append]
      have hf : entriesStorage (st1.entries.filter
          (fun p => !(p.1 == makeCacheKey cfg url))) ≤ cur :=
        entriesStorage_filter_le _ st1.entries
      have hone : entriesStorage
          [((makeCacheKey cfg url),
            (⟨payload, now + cfg.ttlSeconds, payload.length, now⟩ :
              CacheEntry))] = payload.length := by
        simp [entriesStorage]
      rw [hone]
      omega

/-- A `get` cannot increase storage (it only sweeps, refreshes an existing
entry in place, or removes a corrupt one). -/
theorem cacheGet_storage_le (cfg : CacheConfig) (st : CacheState)
    (url : String) (now : Nat) :
    storageBytes (cacheGet cfg st url now).2 ≤ storageBytes st := by
  unfold cacheGet
  simp only []
  set st1 := cleanupExpired now st with hst1
  have h1 : storageBytes st1 ≤ storageBytes st := cleanupExpired_storage_le now st
  cases hl : st1.entries.lookup (makeCacheKey cfg url) with
  | none => exact h1
  | some e =>
    simp only []
    by_cases hexp : e.expiresAt ≤ now
    · rw [if_pos hexp]
      exact le_trans (entriesStorage_filter_le _ st1.entries) h1
    · rw [if_neg hexp]
      have hlf := lookup_filter_storage (makeCacheKey cfg url) st1.entries e hl
      have h2 : entriesStorage (st1.entries.filter
            (fun p => !(p.1 == makeCacheKey cfg url)) ++
          [((makeCacheKey cfg url), { e with lastAccessed := now })]) ≤
          storageBytes st1 := by
        rw [entriesStorage_append]
        have hone : entriesStorage
            [((makeCacheKey cfg url), { e with lastAccessed := now })] =
            e.sizeBytes := by simp [entriesStorage]
        rw [hone]
        exact hlf
      cases hd : cfg.decompress e.compressedData with
      | some content => exact le_trans h2 h1
      | none =>
        simp only []
        refine le_trans (le_trans (entriesStorage_filter_le _ _) ?_) h1
        exact h2

/-- `invalidate` cannot increase storage. -/
theorem cacheInvalidate_storage_le (cfg : CacheConfig) (st : CacheState)
    (url : String) :
    storageBytes (cacheInvalidate cfg st url).2 ≤ storageBytes st := by
  unfold cacheInvalidate
  simp only []
  cases hl : st.entries.lookup (makeCacheKey cfg url) with
  | none => exact le_refl _
  | some e => exact entriesStorage_filter_le _ st.entries

/-- A step of a trace is admissible for the quota argument when: a `set`
writes an entry no larger than the quota to a key that is not currently
live; all other operations are always admissible. -/
def stepOk (cfg : CacheConfig) (st : CacheState) : CacheOp → Prop
  | .setOp url content _ =>
    (∀ payload, cfg.compress content = some payload →
      payload.length ≤ cfg.maxStorageBytes) ∧
    st.entries.lookup (makeCacheKey cfg url) = none
  | _ => True

/-- Every step of the operation sequence is admissible, along the states the
sequence actually reaches. -/
def traceOk (cfg : CacheConfig) : CacheState → List CacheOp → Prop
  | _, [] => True
  | st, op :: rest => stepOk cfg st op ∧ traceOk cfg (applyOp cfg st op) rest

/-- C4 counterexample: a single `set` whose entry is larger than the quota
leaves live storage above the quota — eviction empties the cache but the
oversized entry is stored anyway.  With a quota of 10 bytes and an
11-byte compressed payload, live storage after the write is 11. -/
theorem C4_counterexample :
    ¬ (storageBytes (applyOps
        { ttlSeconds := 100, maxStorageBytes := 10, hash := fun s => s,
          compress := fun c => some (List.replicate c.length 0),
          decompress := fun _ => none }
        CacheState.empty [CacheOp.setOp "u" "0123456789A" 0]) ≤ 10) := by
  decide

/-- C4 (amended): the quota invariant holds along any operation sequence in
which every `set` writes an entry of size at most the quota under a key
that is not live at that moment: the sum of `size_bytes` over live entries
never exceeds `max_storage_bytes`.  It can be violated by a single `set`
whose entry alone exceeds the quota (the counterexample), and the eviction
accounting also permits an overshoot when a `set` overwrites a live key
whose old entry is itself chosen for eviction during the same write. -/
theorem C4_quota_invariant (cfg : CacheConfig) (st : CacheState)
    (ops : List CacheOp) (hst : storageBytes st ≤ cfg.maxStorageBytes)
    (htr : traceOk cfg st ops) :
    storageBytes (applyOps cfg st ops) ≤ cfg.maxStorageBytes := by
  induction ops generalizing st with
  | nil => exact hst
  | cons op rest ih =>
    rw [applyOps]
    rcases htr with ⟨hstep, htr⟩
    apply ih _ _ htr
    cases op with
    | setOp url content now =>
      exact cacheSet_storage_le cfg st url content now hstep.1 hstep.2 hst
    | getOp url now => exact le_trans (cacheGet_storage_le cfg st url now) hst
    | invalidateOp url =>
      exact le_trans (cacheInvalidate_storage_le cfg st url) hst
    | clearOp => exact le_trans (Nat.zero_le _) hst

/-- Witness for C4: a three-operation trace (two sets of 6-byte entries
under a 10-byte quota, forcing one LRU eviction, then a get) ends within
quota, and all hypotheses of the amended statement hold along it. -/
theorem C4_witness :
    storageBytes (applyOps
      { ttlSeconds := 100, maxStorageBytes := 10, hash := fun s => s,
        compress := fun c => some (List.replicate c.length 0),
        decompress := fun _ => none }
      CacheState.empty
      [CacheOp.setOp "a" "123456" 0, CacheOp.setOp "b" "abcdef" 1,
       CacheOp.getOp "b" 2]) ≤ 10 :=
  C4_quota_invariant
    { ttlSeconds := 100, maxStorageBytes := 10, hash := fun s => s,
      compress := fun c => some (List.replicate c.length 0),
      decompress := fun _ => none }
    CacheState.empty
    [CacheOp.setOp "a" "123456" 0, CacheOp.setOp "b" "abcdef" 1,
     CacheOp.getOp "b" 2]
    (by decide)
    ⟨⟨fun payload hp => by
        rw [show payload = List.replicate 6 0 from by
          injection hp with h; exact h.symm]
        decide, by decide⟩,
     ⟨fun payload hp => by
        rw [show payload = List.replicate 6 0 from by
          injection hp with h; exact h.symm]
        decide, by decide⟩,
     ⟨trivial, trivial⟩⟩

/-- Configuration for the C5 witness: 100-second TTL, identity-length
compression. -/
def c5Cfg : CacheConfig :=
  { ttlSeconds := 100, maxStorageBytes := 1024, hash := fun s => s,
    compress := fun c => some (List.replicate c.length 0),
    decompress := fun _ => none }

/-- Witness for C5: an entry written at time 0 under a 100-second TTL is a
miss when read at time 101. -/
theorem C5_witness :
    (cacheGet c5Cfg (cacheSet c5Cfg CacheState.empty "u" "abc" 0) "u" 101).1 =
      none :=
  (C5_ttl_expiry c5Cfg).1 CacheState.empty "u" "abc" (List.replicate 3 0) 0 101
    rfl (by decide)

/-! ### C7: article-type precedence -/

/-- The JSON-LD script body used by the C7 examples (declaring
`@type: TechArticle`). -/
def c7LdText : String := "LDJSON-TechArticle"

/-- A JSON parse function for the C7 examples: it parses the concrete
JSON-LD payload `c7LdText` the way `json.loads` does, and fails on
everything else. -/
def c7Parse (s : String) : Option JsonVal :=
  if s == c7LdText then some (.jobj [("@type", .jstr "TechArticle")])
  else none

/-- A document whose structured data declares `TechArticle` and whose Open
Graph `og:type` is `article`. -/
def c7DocBoth : Node :=
  Node.elem "[document]" [] "" [] (nl [Node.elem "html" [] "" [] (nl [
    Node.elem "head" [] "" [] (nl [
      Node.elem "script" [] "" [("type", "application/ld+json")]
        (nl [Node.text c7LdText]),
      Node.elem "meta" [] "" [("property", "og:type"), ("content", "article")]
        (nl [])])])])

/-- The same document without the Open Graph tag. -/
def c7DocLdOnly : Node :=
  Node.elem "[document]" [] "" [] (nl [Node.elem "html" [] "" [] (nl [
    Node.elem "head" [] "" [] (nl [
      Node.elem "script" [] "" [("type", "application/ld+json")]
        (nl [Node.text c7LdText])])])])

/-- C7 counterexample: with structured data declaring `TechArticle` and an
`og:type` of `article`, the article is classified `news`, not `technical`:
`_detect_article_type` does not handle `TechArticle`, falls through to the
Open Graph token match, and the resulting non-null type suppresses the
technical classification in `_extract_metadata`. -/
theorem C7_counterexample :
    resolveArticleType c7Parse c7DocBoth = some "news" ∧
    resolveArticleType c7Parse c7DocBoth ≠ some "technical" := by
  constructor
  · decide
  · decide

/-- C7 (amended): any type found by `_detect_article_type` (structured-data
`NewsArticle`/`BlogPosting`, else an Open Graph token match) takes
precedence over everything else; a structured-data `TechArticle` yields
`technical` (through `_detect_technical_article`, where it short-circuits
the heuristics) only when `_detect_article_type` found no type at all — in
particular an Open Graph `og:type` token overrides `TechArticle`, and the
heuristic technical detector likewise applies only when no type was
found. -/
theorem C7_article_type_precedence (jparse : String → Option JsonVal)
    (doc : Node) :
    (∀ t, detectArticleType jparse doc = some t →
      resolveArticleType jparse doc = some t) ∧
    (hasTechArticleLd jparse doc = true →
      detectTechnicalArticle jparse doc = true) ∧
    (detectArticleType jparse doc = none →
      detectTechnicalArticle jparse doc = true →
      resolveArticleType jparse doc = some "technical") := by
  refine ⟨?_, ?_, ?_⟩
  · intro t ht
    unfold resolveArticleType
    rw [ht]
    simp
  · intro hld
    unfold detectTechnicalArticle
    rw [hld]
    rfl
  · intro hn htech
    unfold resolveArticleType
    rw [hn, htech]
    simp

/-- Witness for C7: on the TechArticle-only document, no structured/OG type
is found, the technical detector fires, and the resolved type is
`technical`. -/
theorem C7_witness :
    resolveArticleType c7Parse c7DocLdOnly = some "technical" :=
  (C7_article_type_precedence c7Parse c7DocLdOnly).2.2 (by decide) (by decide)

/-! ### C8: empty extraction is a fatal error -/

/-- C8: `extract` raises `ExtractionError` when the pipeline yields zero
blocks, so every successfully returned `ExtractedContent` has a non-empty
`content_blocks` list. -/
theorem C8_no_empty_success (ids : Nat → String)
    (mkMeta : List ContentBlock → List (String × MVal))
    (url title : String) (cleanedDoc : Node) (ec : ExtractedContent)
    (h : extractCore ids mkMeta url title cleanedDoc = Except.ok ec) :
    ec.contentBlocks ≠ [] := by
  unfold extractCore at h
  simp only [] at h
  by_cases hb : (parseHtmlToBlocks ids cleanedDoc).isEmpty = true
  · rw [if_pos hb] at h
    exact absurd h (by simp)
  · rw [if_neg hb] at h
    injection h with h2
    rw [← h2]
    show parseHtmlToBlocks ids cleanedDoc ≠ []
    intro he
    rw [he] at hb
    simp at hb

/-- Witness for C8: a one-heading document extracts successfully, and the
returned content has a non-empty block list. -/
theorem C8_witness :
    (ExtractedContent.mk "https://example.com" "T"
      [ContentBlock.mk "id0" "heading" "T" [("level", MVal.n 1)]]
      []).contentBlocks ≠ [] :=
  C8_no_empty_success (fun n => "id" ++ toString n) (fun _ => [])
    "https://example.com" "T"
    (Node.elem "[document]" [] "" [] (nl [Node.elem "body" [] "" []
      (nl [Node.elem "h1" [] "" [] (nl [Node.text "T"])])]))
    (ExtractedContent.mk "https://example.com" "T"
      [ContentBlock.mk "id0" "heading" "T" [("level", MVal.n 1)]] [])
    (by
      unfold extractCore
      rw [show parseHtmlToBlocks (fun n => "id" ++ toString n)
          (Node.elem "[document]" [] "" [] (nl [Node.elem "body" [] "" []
            (nl [Node.elem "h1" [] "" [] (nl [Node.text "T"])])])) =
          [ContentBlock.mk "id0" "heading" "T" [("level", MVal.n 1)]] from
        by decide]
      rfl)

end Luminote
